import Mathlib

/-!
Shallow embedding of the Adblock content-filters profile engine
(`src/core/AdblockContentFiltersProfile.cpp` of Otter Browser) and proofs
about its parser, filter trie, URL matcher, header scanner and update
handler.

Modelling conventions:
* `QString` values are modelled as `List Char`; `QChar::isDigit` and
  `QChar::isLetter` are modelled by their ASCII restrictions
  (`Char.isDigit`, `Char.isAlpha`), adequate for URL patterns.
* `QFlags` bit-sets are modelled as `List RuleOption`, with membership
  (`hasOption`) playing the role of `testFlag` and emptiness the role of
  comparison with `NoOption`.  Options are only ever added, so the list is
  membership-equivalent to the bit-set.
* The `Request` helper struct and `ContentFiltersManager` helpers are not
  part of this translation unit; they are modelled from the spec where
  needed (marked `Modelled from the spec:`).
* Iteration over the `m_resourceTypes` hash is modelled by a fixed list in
  insertion order; the loop body only ever lowers `isBlocked`, so the
  result is order-independent.
-/

set_option maxHeartbeats 2000000
set_option maxRecDepth 8000

namespace Otter

/-- Rule options recognised by the parser (`AdblockContentFiltersProfile::RuleOption`). -/
inductive RuleOption where
  | ThirdPartyOption
  | StyleSheetOption
  | ImageOption
  | ScriptOption
  | ObjectOption
  | ObjectSubRequestOption
  | SubDocumentOption
  | XmlHttpRequestOption
  | WebSocketOption
  | PopupOption
  | ElementHideOption
  | GenericHideOption
deriving DecidableEq, Repr

/-- Match modes of a network rule (`AdblockContentFiltersProfile::RuleMatch`);
`ContainsMatch` is the default (substring) mode. -/
inductive RuleMatch where
  | ContainsMatch
  | StartMatch
  | EndMatch
  | ExactMatch
deriving DecidableEq, Repr

/-- Resource types supplied by the host (`NetworkManager::ResourceType`);
`MainFrameType` and `OtherType` stand for the unmapped types. -/
inductive ResourceType where
  | MainFrameType
  | SubFrameType
  | StyleSheetType
  | ScriptType
  | ImageType
  | ObjectType
  | ObjectSubrequestType
  | XmlHttpRequestType
  | WebSocketType
  | PopupType
  | OtherType
deriving DecidableEq, Repr

/-- Cosmetic-filters modes of `ContentFiltersManager`. -/
inductive CosmeticFiltersMode where
  | NoFilters
  | DomainOnlyFilters
  | AllFilters
deriving DecidableEq, Repr

/-- Profile error states (`ContentFiltersProfile::ProfileError`). -/
inductive ProfileError where
  | NoError
  | ReadError
  | DownloadError
  | ChecksumError
  | ParseError
deriving DecidableEq, Repr

/-- The result record returned by the matcher
(`ContentFiltersManager::CheckResult`, fields used by this translation
unit; the cosmetic-mode field keeps the source's spelling). -/
structure CheckResult where
  isBlocked : Bool := false
  isException : Bool := false
  rule : List Char := []
  comesticFiltersMode : CosmeticFiltersMode := .AllFilters
deriving DecidableEq, Repr

/-- A parsed network rule (`AdblockContentFiltersProfile::Node::Rule`). -/
structure Rule where
  rule : List Char := []
  isException : Bool := false
  needsDomainCheck : Bool := false
  ruleMatch : RuleMatch := .ContainsMatch
  ruleOptions : List RuleOption := []
  ruleExceptions : List RuleOption := []
  blockedDomains : List (List Char) := []
  allowedDomains : List (List Char) := []
deriving DecidableEq, Repr

/-- Modelled from the spec: the `Request` helper (declared in the missing
header) precomputes the request URL string, the request host and the base
host of a request together with its resource type. -/
structure Request where
  baseHost : List Char := []
  requestUrl : List Char := []
  requestHost : List Char := []
  resourceType : ResourceType := .OtherType
deriving DecidableEq, Repr

/-! ### String helpers (QString operations on `List Char`) -/

/-- `QString::startsWith` on character lists. -/
def strStartsWith : List Char → List Char → Bool
  | _, [] => true
  | [], _ :: _ => false
  | a :: s, b :: p => a = b && strStartsWith s p

/-- `QString::endsWith` on character lists. -/
def strEndsWith (s p : List Char) : Bool :=
  strStartsWith s.reverse p.reverse

/-- `QString::contains` on character lists (true on the empty needle). -/
def strContains : List Char → List Char → Bool
  | s, sub =>
    strStartsWith s sub ||
      match s with
      | [] => false
      | _ :: t => strContains t sub

/-- `QStringList::contains` with exact element comparison. -/
def listHas (l : List (List Char)) (x : List Char) : Bool :=
  l.any (fun y => y = x)

/-- `QFlags::testFlag` on the list model of a bit-set. -/
def hasOption (flags : List RuleOption) (o : RuleOption) : Bool :=
  flags.any (fun x => x = o)

/-- Case-insensitive `QString::contains` (ASCII lowering). -/
def strContainsCI (s sub : List Char) : Bool :=
  strContains (s.map Char.toLower) (sub.map Char.toLower)

/-- Whitespace for `QString::trimmed` (ASCII whitespace). -/
def isSpaceChar (c : Char) : Bool :=
  c = ' ' || c = '\t' || c = '\n' || c = '\r' || c = '\x0b' || c = '\x0c'

/-- `QString::trimmed` on character lists. -/
def strTrim (s : List Char) : List Char :=
  ((s.dropWhile isSpaceChar).reverse.dropWhile isSpaceChar).reverse

/-- `QString::split` on a non-empty separator string, keeping empty parts. -/
def splitOnSeq (sep : List Char) : List Char → List (List Char)
  | [] => [[]]
  | c :: rest =>
    if sep ≠ [] ∧ strStartsWith (c :: rest) sep then
      [] :: splitOnSeq sep ((c :: rest).drop sep.length)
    else
      match splitOnSeq sep rest with
      | [] => [[c]]
      | p :: ps => (c :: p) :: ps
termination_by l => l.length
decreasing_by
  · rename_i h
    simp only [List.length_drop, List.length_cons]
    have : sep.length ≠ 0 := by
      intro hz
      exact h.1 (List.eq_nil_of_length_eq_zero hz)
    omega
  · simp

/-- `QByteArray::remove(pos, len)` on character lists. -/
def removeMid (l : List Char) (pos len : Nat) : List Char :=
  l.take pos ++ l.drop (pos + len)

/-- The base64 alphabet used by `QByteArray::toBase64`. -/
def base64Alphabet : List Char :=
  "ABCDEFGHIJKLMNOPQRSTUVWXYZabcdefghijklmnopqrstuvwxyz0123456789+/".toList

/-- One base64 output character. -/
def b64Char (n : Nat) : Char :=
  base64Alphabet.getD n 'A'

/-- `QByteArray::toBase64` on byte lists (standard alphabet, `=` padding). -/
def toBase64 : List Nat → List Char
  | [] => []
  | [a] => [b64Char (a / 4), b64Char (a % 4 * 16), '=', '=']
  | [a, b] => [b64Char (a / 4), b64Char (a % 4 * 16 + b / 16), b64Char (b % 16 * 4), '=']
  | a :: b :: c :: rest =>
    b64Char (a / 4) :: b64Char (a % 4 * 16 + b / 16) ::
      b64Char (b % 16 * 4 + c / 64) :: b64Char (c % 64) :: toBase64 rest

/-- Modelled from the spec: `ContentFiltersManager::createSubdomainList`
produces the request host together with every suffix that starts after a
dot (for `a.b.c`: `a.b.c`, `b.c`, `c`). -/
def dotSuffixes : List Char → List (List Char)
  | [] => []
  | c :: rest => if c = '.' then rest :: dotSuffixes rest else dotSuffixes rest

/-- Modelled from the spec: the subdomain list of a host. -/
def createSubdomainList (host : List Char) : List (List Char) :=
  host :: dotSuffixes host

/-! ### Result combination

Everywhere in the matcher a freshly computed `currentResult` is handled by
the same two-branch pattern: a blocked result replaces the running
`result`, an exception result is returned immediately, anything else is
discarded.  `combineE` is that pattern as a fold over a list of results,
with `Except.error` standing for the early return; `combineAux` is the
fold with the early return merged back in.  These are specification-side
combinators used to state the walk-order theorems. -/

def combineE (res : CheckResult) : List CheckResult → Except CheckResult CheckResult
  | [] => .ok res
  | r :: t =>
    if r.isBlocked then combineE r t
    else if r.isException then .error r
    else combineE res t

/-- The value produced by the `combineE` pattern when the early return is
merged with the normal return. -/
def combineAux (res : CheckResult) (l : List CheckResult) : CheckResult :=
  match combineE res l with
  | .ok r => r
  | .error e => e

theorem combineE_append (res : CheckResult) (t1 t2 : List CheckResult) :
    combineE res (t1 ++ t2) =
      match combineE res t1 with
      | .error e => .error e
      | .ok r => combineE r t2 := by
  induction t1 generalizing res with
  | nil => simp [combineE]
  | cons r t ih =>
    simp only [List.cons_append, combineE]
    by_cases hb : r.isBlocked
    · simp only [hb, if_true]
      exact ih r
    · by_cases he : r.isException
      · simp [hb, he]
      · simp only [hb, he, if_false]
        exact ih res

theorem combineE_shift (res : CheckResult) (t : List CheckResult) :
    combineE res t =
      match combineE {} t with
      | .error e => .error e
      | .ok a => .ok (if a.isBlocked then a else res) := by
  induction t generalizing res with
  | nil => simp [combineE]
  | cons r t ih =>
    simp only [combineE]
    by_cases hb : r.isBlocked
    · simp only [hb, if_true]
      rw [ih r]
      match h : combineE {} t with
      | .error e => simp
      | .ok a =>
        simp only []
        by_cases ha : a.isBlocked <;> simp [ha, hb]
    · by_cases he : r.isException
      · simp [hb, he]
      · simp only [hb, he, if_false]
        rw [ih res, ih {}]
        match h : combineE {} t with
        | .error e => simp
        | .ok a =>
          simp only []
          by_cases ha : a.isBlocked <;> simp [ha]

theorem combineE_ok (res : CheckResult) (t : List CheckResult) (a : CheckResult)
    (h : combineE res t = .ok a) : a = res ∨ a.isBlocked = true := by
  induction t generalizing res with
  | nil => simp [combineE] at h; exact Or.inl h.symm
  | cons r t ih =>
    simp only [combineE] at h
    by_cases hb : r.isBlocked
    · simp only [hb, if_true] at h
      rcases ih r h with h1 | h1
      · exact Or.inr (h1 ▸ hb)
      · exact Or.inr h1
    · by_cases he : r.isException
      · simp [hb, he] at h
      · simp only [hb, he, if_false] at h
        exact ih res h

theorem combineE_error (res : CheckResult) (t : List CheckResult) (e : CheckResult)
    (h : combineE res t = .error e) : e.isBlocked = false ∧ e.isException = true := by
  induction t generalizing res with
  | nil => simp [combineE] at h
  | cons r t ih =>
    simp only [combineE] at h
    by_cases hb : r.isBlocked
    · simp only [hb, if_true] at h
      exact ih r h
    · by_cases he : r.isException
      · simp only [hb, he, if_false, if_true] at h
        cases h
        exact ⟨by simpa using hb, he⟩
      · simp only [hb, he, if_false] at h
        exact ih res h

theorem defaultResult_flags :
    ({} : CheckResult).isBlocked = false ∧ ({} : CheckResult).isException = false :=
  ⟨rfl, rfl⟩

/-- The central splitting lemma: handling the aggregate of a result
segment `t1` with the blocked / exception two-branch pattern and then
continuing with `t2` is the same as folding over the concatenation. -/
theorem combineAux_split (res : CheckResult) (t1 t2 : List CheckResult) :
    combineAux res (t1 ++ t2) =
      (let a := combineAux {} t1;
       if a.isBlocked then combineAux a t2
       else if a.isException then a
       else combineAux res t2) := by
  simp only [combineAux, combineE_append]
  rw [combineE_shift res t1]
  match h : combineE {} t1 with
  | .error e =>
    have hf := combineE_error {} t1 e h
    simp [hf.1, hf.2]
  | .ok a =>
    rcases combineE_ok {} t1 a h with ha | ha
    · have : a.isBlocked = false := by rw [ha]
      have hx : a.isException = false := by rw [ha]
      simp [this, hx]
    · simp [ha]

/-! ### Rule evaluation (`checkRuleMatch`) -/

/-- The separator characters `m_separators` (`_ - . %`). -/
def m_separators : List Char := ['_', '-', '.', '%']

/-- The host-boundary characters of the `m_domainExpression` regular
expression `[:\?&/=]`. -/
def domainBoundaryChar (c : Char) : Bool :=
  c = ':' || c = '?' || c = '&' || c = '/' || c = '='

/-- `AdblockContentFiltersProfile::resolveDomainExceptions`: true when any
entry of the list is contained in the url string. -/
def resolveDomainExceptions (url : List Char) (ruleList : List (List Char)) : Bool :=
  ruleList.any (fun r => strContains url r)

/-- The `m_resourceTypes` mapping from resource types to option bits, in
insertion order (iteration order of the `QHash` is unspecified, but the
type-filtering loop only ever lowers `isBlocked`, so any order yields the
same result). -/
def m_resourceTypes : List (ResourceType × RuleOption) :=
  [(.ImageType, .ImageOption), (.ScriptType, .ScriptOption),
   (.StyleSheetType, .StyleSheetOption), (.ObjectType, .ObjectOption),
   (.XmlHttpRequestType, .XmlHttpRequestOption), (.SubFrameType, .SubDocumentOption),
   (.PopupType, .PopupOption), (.ObjectSubrequestType, .ObjectSubRequestOption),
   (.WebSocketType, .WebSocketOption)]

/-- One iteration of the resource-type filtering loop of `checkRuleMatch`
(lines 556-580 of the source). -/
def resourceTypeStep (rule : Rule) (request : Request) (isBlocked : Bool)
    (entry : ResourceType × RuleOption) : Bool :=
  let supportsException := entry.2 ≠ .WebSocketOption ∧ entry.2 ≠ .PopupOption
  if hasOption rule.ruleOptions entry.2 ||
      (supportsException && hasOption rule.ruleExceptions entry.2) then
    if request.resourceType = entry.1 then
      (if isBlocked then hasOption rule.ruleOptions entry.2 else isBlocked)
    else if supportsException then
      (if isBlocked then hasOption rule.ruleExceptions entry.2 else isBlocked)
    else false
  else isBlocked

/-- The third-party adjustment of `checkRuleMatch` (lines 544-554 of the
source): first-party requests use the exception polarity, third-party
requests without explicit domain lists use the option polarity. -/
def thirdPartyAdjust (rule : Rule) (request : Request)
    (requestSubdomainList : List (List Char)) (isBlocked : Bool) : Bool :=
  if hasOption rule.ruleOptions .ThirdPartyOption ||
      hasOption rule.ruleExceptions .ThirdPartyOption then
    if request.baseHost.isEmpty || listHas requestSubdomainList request.baseHost then
      hasOption rule.ruleExceptions .ThirdPartyOption
    else if rule.blockedDomains.isEmpty && rule.allowedDomains.isEmpty then
      hasOption rule.ruleOptions .ThirdPartyOption
    else isBlocked
  else isBlocked

/-- The `switch (rule->ruleMatch)` guard of `checkRuleMatch`: does the
request URL relate to the accumulated `currentRule` text as the match mode
demands? -/
def ruleMatchModeOk (rule : Rule) (currentRule : List Char) (request : Request) : Bool :=
  match rule.ruleMatch with
  | .StartMatch => strStartsWith request.requestUrl currentRule
  | .EndMatch => strEndsWith request.requestUrl currentRule
  | .ExactMatch => request.requestUrl = currentRule
  | .ContainsMatch => strContains request.requestUrl currentRule

/-- The cumulative `isBlocked` flag of `checkRuleMatch` after the
domain-scope, third-party and resource-type steps (it starts out `true`
once the blocked-domains early return has been passed). -/
def ruleFinalBlocked (rule : Rule) (request : Request) : Bool :=
  let isBlocked : Bool :=
    if !rule.allowedDomains.isEmpty then
      !resolveDomainExceptions request.baseHost rule.allowedDomains
    else true
  let isBlocked :=
    thirdPartyAdjust rule request (createSubdomainList request.requestHost) isBlocked
  if !rule.ruleOptions.isEmpty || !rule.ruleExceptions.isEmpty then
    m_resourceTypes.foldl (resourceTypeStep rule request) isBlocked
  else if request.resourceType = .PopupType then false
  else isBlocked

/-- The result record built by `checkRuleMatch` when the rule fires. -/
def ruleFireResult (rule : Rule) : CheckResult :=
  if rule.isException then
    { isBlocked := false, isException := true, rule := rule.rule,
      comesticFiltersMode :=
        if hasOption rule.ruleOptions .ElementHideOption then .NoFilters
        else if hasOption rule.ruleOptions .GenericHideOption then .DomainOnlyFilters
        else ({} : CheckResult).comesticFiltersMode }
  else { isBlocked := true, rule := rule.rule }

/-- `AdblockContentFiltersProfile::checkRuleMatch`: evaluate one rule
against the accumulated `currentRule` text and the request. -/
def checkRuleMatch (rule : Rule) (currentRule : List Char) (request : Request) :
    CheckResult :=
  if !ruleMatchModeOk rule currentRule request then {}
  else if rule.needsDomainCheck &&
      !(listHas (createSubdomainList request.requestHost)
          (currentRule.takeWhile (fun c => !domainBoundaryChar c))) then {}
  else if !rule.blockedDomains.isEmpty &&
      !resolveDomainExceptions request.baseHost rule.blockedDomains then {}
  else if ruleFinalBlocked rule request then ruleFireResult rule
  else {}

/-- `checkRuleMatch` returns either a pass, or the firing record of its
rule. -/
theorem checkRuleMatch_cases (rule : Rule) (currentRule : List Char) (request : Request) :
    checkRuleMatch rule currentRule request = {} ∨
      checkRuleMatch rule currentRule request = ruleFireResult rule := by
  unfold checkRuleMatch
  split_ifs <;> simp

/-- `checkRuleMatch` never returns a result that is simultaneously a block
and an exception. -/
theorem checkRuleMatch_flags (rule : Rule) (currentRule : List Char) (request : Request) :
    (checkRuleMatch rule currentRule request).isException = true →
      (checkRuleMatch rule currentRule request).isBlocked = false := by
  rcases checkRuleMatch_cases rule currentRule request with h | h <;> rw [h]
  · intro hx; exact rfl
  · unfold ruleFireResult
    split_ifs <;> simp

/-! ### The filter trie and the matcher -/

/-- A trie node (`AdblockContentFiltersProfile::Node`): one character, an
ordered child list and the rules terminating here.  The root carries the
null character (`QChar()`). -/
inductive Node where
  | mk (value : Char) (children : List Node) (rules : List Rule)

/-- The character of a node. -/
def Node.value : Node → Char
  | .mk v _ _ => v

/-- The ordered child list of a node. -/
def Node.children : Node → List Node
  | .mk _ c _ => c

/-- The rules terminating at a node. -/
def Node.rules : Node → List Rule
  | .mk _ _ r => r

/-- The empty root node (`new Node()`). -/
def emptyRoot : Node := .mk (Char.ofNat 0) [] []

/-- The loop body of `evaluateNodeRules`, walking the node's rule list
with the running `result` accumulator (blocked results replace it,
exception results return immediately). -/
def evaluateNodeRulesAux (currentRule : List Char) (request : Request)
    (result : CheckResult) : List Rule → CheckResult
  | [] => result
  | r :: rs =>
    let currentResult := checkRuleMatch r currentRule request
    if currentResult.isBlocked then evaluateNodeRulesAux currentRule request currentResult rs
    else if currentResult.isException then currentResult
    else evaluateNodeRulesAux currentRule request result rs

/-- `AdblockContentFiltersProfile::evaluateNodeRules`. -/
def evaluateNodeRules (node : Node) (currentRule : List Char) (request : Request) :
    CheckResult :=
  evaluateNodeRulesAux currentRule request {} node.rules

/-- The loop at the end of `checkUrlSubstring` (lines 467-482 of the
source): once the URL slice is exhausted, every `'^'` child triggers one
more evaluation — of the rules of `node` itself, not of the child (the
argument passed to `evaluateNodeRules` there is `node`). -/
def csEnd (node : Node) (currentRule : List Char) (request : Request)
    (result : CheckResult) : List Node → CheckResult
  | [] => result
  | ch :: t =>
    if ch.value = '^' then
      let currentResult := evaluateNodeRules node currentRule request
      if currentResult.isBlocked then csEnd node currentRule request currentResult t
      else if currentResult.isException then currentResult
      else csEnd node currentRule request result t
    else csEnd node currentRule request result t

/-- Is `c` matched by a `'^'` separator edge?  (`!isDigit && !isLetter &&
!m_separators.contains`, ASCII model of the `QChar` classifiers.) -/
def sepMatches (c : Char) : Bool :=
  !c.isDigit && !c.isAlpha && !m_separators.any (fun x => x = c)

mutual
/-- `AdblockContentFiltersProfile::checkUrlSubstring` (the local `result`
of the source starts out as the default record). -/
def checkUrlSubstring (node : Node) (s currentRule : List Char) (request : Request) :
    CheckResult :=
  csLoop node s currentRule request {}
termination_by (sizeOf node, 2, 0)

/-- The main `for` loop of `checkUrlSubstring`, with state
`(node, s, currentRule, result)`; `s` is the part `subString.mid(i)` of
the slice that is still to be consumed. -/
def csLoop (node : Node) (s currentRule : List Char) (request : Request)
    (result : CheckResult) : CheckResult :=
  match node, s with
  | node, [] =>
    let currentResult := evaluateNodeRules node currentRule request
    if currentResult.isBlocked then
      csEnd node currentRule request currentResult node.children
    else if currentResult.isException then currentResult
    else csEnd node currentRule request result node.children
  | .mk v ch rs, c :: rest =>
    let currentResult := evaluateNodeRules (.mk v ch rs) currentRule request
    if currentResult.isBlocked then
      csScan c rest currentRule request currentResult ch
    else if currentResult.isException then currentResult
    else csScan c rest currentRule request result ch
termination_by (sizeOf node, 1, 0)

/-- The inner `for` loop over the children of the current node: a `'*'`
child spawns the wildcard sub-walks, a `'^'` child spawns one sub-walk on
the unshifted slice when the current character is a separator, and a child
carrying the current character is descended into (the `break` of the
source, rendered as the tail call back into `csLoop`). -/
def csScan (c : Char) (rest currentRule : List Char) (request : Request)
    (result : CheckResult) (children : List Node) : CheckResult :=
  match children with
  | [] => result
  | next :: others =>
    match
      (if next.value = '*' then
        csWild next (c :: rest) currentRule request result
          (List.range (c :: rest).length)
      else .ok result : Except CheckResult CheckResult) with
    | .error e => e
    | .ok result =>
      if next.value = '^' && sepMatches c then
        let currentResult := checkUrlSubstring next (c :: rest) currentRule request
        if currentResult.isBlocked then
          if next.value = c then csLoop next rest (currentRule ++ [c]) request currentResult
          else csScan c rest currentRule request currentResult others
        else if currentResult.isException then currentResult
        else
          if next.value = c then csLoop next rest (currentRule ++ [c]) request result
          else csScan c rest currentRule request result others
      else
        if next.value = c then csLoop next rest (currentRule ++ [c]) request result
        else csScan c rest currentRule request result others
termination_by (sizeOf children, 0, 0)

/-- The wildcard loop of `checkUrlSubstring`: for a `'*'` child, one
sub-walk per split point `k` of the remaining slice (`k` ranges over
`0 .. length-1`), threading `result` and early-returning exceptions. -/
def csWild (next : Node) (wss currentRule : List Char) (request : Request)
    (result : CheckResult) : List Nat → Except CheckResult CheckResult
  | [] => .ok result
  | k :: kt =>
    let currentResult :=
      checkUrlSubstring next (wss.drop k) (currentRule ++ wss.take k) request
    if currentResult.isBlocked then csWild next wss currentRule request currentResult kt
    else if currentResult.isException then .error currentResult
    else csWild next wss currentRule request result kt
termination_by ks => (sizeOf next, 3, sizeOf ks)
end

/-- The loop body of `checkUrl`: one trie walk per suffix position of the
request URL (the list `is` holds the remaining values of the loop index
`i`), threading `result` exactly like the other loops. -/
def checkUrlLoop (root : Node) (request : Request) (result : CheckResult) :
    List Nat → CheckResult
  | [] => result
  | i :: t =>
    let currentResult :=
      checkUrlSubstring root (request.requestUrl.drop i) [] request
    if currentResult.isBlocked then checkUrlLoop root request currentResult t
    else if currentResult.isException then currentResult
    else checkUrlLoop root request result t

/-- `AdblockContentFiltersProfile::checkUrl` for a loaded profile with
trie root `root` (the `m_wasLoaded` / `loadRules` guard and the `Request`
construction from `QUrl`s are outside the model). -/
def checkUrl (root : Node) (request : Request) : CheckResult :=
  checkUrlLoop root request {} (List.range request.requestUrl.length)

/-! ### Trie insertion and the parser -/

mutual
/-- The trie-insertion loop at the end of `parseRuleLine` (lines 313-353
of the source): walk the residual pattern character by character, reusing
an existing child with the right value or creating a fresh one; a fresh
`'^'` child is put at the front of its parent's child list, any other
fresh child at the back; the rule is appended at the terminal node. -/
def insertPattern (node : Node) (line : List Char) (rule : Rule) : Node :=
  match node, line with
  | .mk v ch rs, [] => .mk v ch (rs ++ [rule])
  | .mk v ch rs, c :: rest =>
    match insertChild ch c rest rule with
    | some newCh => .mk v newCh rs
    | none =>
      let newChild := insertPattern (.mk c [] []) rest rule
      if c = '^' then .mk v (newChild :: ch) rs
      else .mk v (ch ++ [newChild]) rs
termination_by (line.length, 0, 0)

/-- Find the first child with the wanted value and insert the rest of the
pattern under it (`none` when no child matches). -/
def insertChild (children : List Node) (c : Char) (rest : List Char) (rule : Rule) :
    Option (List Node) :=
  match children with
  | [] => none
  | child :: others =>
    if child.value = c then some (insertPattern child rest rule :: others)
    else
      match insertChild others c rest rule with
      | some newOthers => some (child :: newOthers)
      | none => none
termination_by (rest.length, 1, sizeOf children)
end

/-- The `m_options` table. -/
def lookupOption (name : List Char) : Option RuleOption :=
  if name = "third-party".toList then some .ThirdPartyOption
  else if name = "stylesheet".toList then some .StyleSheetOption
  else if name = "image".toList then some .ImageOption
  else if name = "script".toList then some .ScriptOption
  else if name = "object".toList then some .ObjectOption
  else if name = "object-subrequest".toList then some .ObjectSubRequestOption
  else if name = "object_subrequest".toList then some .ObjectSubRequestOption
  else if name = "subdocument".toList then some .SubDocumentOption
  else if name = "xmlhttprequest".toList then some .XmlHttpRequestOption
  else if name = "websocket".toList then some .WebSocketOption
  else if name = "popup".toList then some .PopupOption
  else if name = "elemhide".toList then some .ElementHideOption
  else if name = "generichide".toList then some .GenericHideOption
  else none

/-- The `domain=` handling of the option loop: the token's part after the
first `=` (the whole token when there is none) is split on `|`, skipping
empty parts; `~`-prefixed entries go to the allowed domains, the rest to
the blocked domains. -/
def parseDomainsInto (acc : Rule) (tok : List Char) : Rule :=
  let afterEq :=
    match tok.findIdx? (fun ch => ch = '=') with
    | some i => tok.drop (i + 1)
    | none => tok
  let parsedDomains := (splitOnSeq ['|'] afterEq).filter (fun d => d ≠ [])
  parsedDomains.foldl
    (fun acc d =>
      if strStartsWith d ['~'] then
        { acc with allowedDomains := acc.allowedDomains ++ [d.drop 1] }
      else { acc with blockedDomains := acc.blockedDomains ++ [d] }) acc

/-- One step of the option-parsing loop of `parseRuleLine` (lines 268-311
of the source), folded over the option tokens; `none` aborts the whole
rule (unknown option token). -/
def parseOptionToken (acc : Rule) (tok : List Char) : Option Rule :=
  let optionException := strStartsWith tok ['~']
  let optionName := if optionException then tok.drop 1 else tok
  match lookupOption optionName with
  | some option =>
    if (!acc.isException || optionException) &&
        (option = .ElementHideOption || option = .GenericHideOption) then some acc
    else if !optionException then
      some { acc with ruleOptions := acc.ruleOptions ++ [option] }
    else if option ≠ .WebSocketOption ∧ option ≠ .PopupOption then
      some { acc with ruleExceptions := acc.ruleExceptions ++ [option] }
    else some acc
  | none =>
    if strStartsWith optionName "domain".toList then some (parseDomainsInto acc tok)
    else none

/-- Fold of `parseOptionToken` over all option tokens. -/
def parseOptions (acc : Rule) : List (List Char) → Option Rule
  | [] => some acc
  | tok :: rest =>
    match parseOptionToken acc tok with
    | some acc2 => parseOptions acc2 rest
    | none => none

/-- The anchor-consuming tail of the network-rule path (lines 238-311 of
the source): consume the `@@`, `||` and `|` markers from the残 pattern,
then parse the option tokens; returns the finished rule with the residual
pattern, `none` when an option token is unknown. -/
def parseAnchors (rule line : List Char) (options : List (List Char)) :
    Option (Rule × List Char) :=
  let isException := strStartsWith line "@@".toList
  let line := if isException then line.drop 2 else line
  let needsDomainCheck := strStartsWith line "||".toList
  let line := if needsDomainCheck then line.drop 2 else line
  let startAnchor := strStartsWith line ['|']
  let line := if startAnchor then line.drop 1 else line
  let ruleMatch : RuleMatch := if startAnchor then .StartMatch else .ContainsMatch
  let endAnchor := strEndsWith line ['|']
  let ruleMatch :=
    if endAnchor then (if ruleMatch = .StartMatch then .ExactMatch else .EndMatch)
    else ruleMatch
  let line := if endAnchor then line.dropLast else line
  match parseOptions
      { rule := rule, isException := isException,
        needsDomainCheck := needsDomainCheck, ruleMatch := ruleMatch } options with
  | some definition => some (definition, line)
  | none => none

/-- The network-rule half of `parseRuleLine` (lines 214-311 of the
source): split off the `$options` tail, strip one trailing and one
leading `*`, drop wildcard rules when wildcards are disabled, then consume
anchors and options via `parseAnchors`.  Returns the finished rule
together with the residual pattern to be inserted into the trie, or
`none` when the line is dropped. -/
def parseNetworkRule (rule : List Char) (wildcardsEnabled : Bool) :
    Option (Rule × List Char) :=
  let optionsSeparator := rule.findIdx? (fun ch => ch = '$')
  let options :=
    match optionsSeparator with
    | some i => (splitOnSeq [','] (rule.drop (i + 1))).filter (fun o => o ≠ [])
    | none => []
  let line := match optionsSeparator with
    | some i => rule.take i
    | none => rule
  let line := if strEndsWith line ['*'] then line.dropLast else line
  let line := if strStartsWith line ['*'] then line.drop 1 else line
  if !wildcardsEnabled && strContains line ['*'] then none
  else parseAnchors rule line options

/-- The state mutated by `parseRuleLine`: the trie root and the three
cosmetic-filter containers of the profile. -/
structure ProfileState where
  root : Node := emptyRoot
  cosmeticFiltersRules : List (List Char) := []
  cosmeticFiltersDomainRules : List (List Char × List Char) := []
  cosmeticFiltersDomainExceptions : List (List Char × List Char) := []

/-- `AdblockContentFiltersProfile::parseStyleSheetRule`: the part before
the separator is split on `,` into domains, each paired with the selector
after the separator (the `QMultiHash` is modelled as an association
list). -/
def parseStyleSheetRule (line : List (List Char))
    (list : List (List Char × List Char)) : List (List Char × List Char) :=
  list ++ (splitOnSeq [','] (line.getD 0 [])).map (fun d => (d, line.getD 1 []))

/-- `AdblockContentFiltersProfile::parseRuleLine`, parameterised by the
process-wide cosmetic-filters mode and wildcard switch of
`ContentFiltersManager` (treated as parser configuration). -/
def parseRuleLine (mode : CosmeticFiltersMode) (wildcardsEnabled : Bool)
    (st : ProfileState) (rule : List Char) : ProfileState :=
  if rule = [] || strStartsWith rule ['!'] then st
  else if strStartsWith rule "##".toList then
    if mode = .AllFilters then
      { st with cosmeticFiltersRules := st.cosmeticFiltersRules ++ [rule.drop 2] }
    else st
  else if strContains rule "##".toList then
    if mode ≠ .NoFilters then
      let newRules := parseStyleSheetRule (splitOnSeq "##".toList rule) st.cosmeticFiltersDomainRules
      { st with cosmeticFiltersDomainRules := newRules }
    else st
  else if strContains rule "#@#".toList then
    if mode ≠ .NoFilters then
      let newExcs := parseStyleSheetRule (splitOnSeq "#@#".toList rule) st.cosmeticFiltersDomainExceptions
      { st with cosmeticFiltersDomainExceptions := newExcs }
    else st
  else
    match parseNetworkRule rule wildcardsEnabled with
    | some (definition, line) => { st with root := insertPattern st.root line definition }
    | none => st

/-! ### Header scanner and profile metadata -/

/-- `AdblockContentFiltersProfile::HeaderInformation` (the error string is
not modelled; it is a translated UI message). -/
structure HeaderInformation where
  title : List Char := []
  isEmpty : Bool := true
  error : ProfileError := .NoError
deriving DecidableEq, Repr

/-- The body loop of the static `loadHeader` (lines 146-170 of the
source).  Each line is trimmed; a non-blank non-comment line clears the
emptiness hint; a `! Title: ` line stores the title and `continue`s past
both the line counter check and its increment; otherwise the loop breaks
once `lineNumber` exceeds 50, after having processed the line. -/
def scanHeaderBody (information : HeaderInformation) (lineNumber : Nat) :
    List (List Char) → HeaderInformation
  | [] => information
  | l :: rest =>
    let line := strTrim l
    let information :=
      if information.isEmpty && !line.isEmpty && !strStartsWith line ['!'] then
        { information with isEmpty := false }
      else information
    if strStartsWith line "! Title: ".toList then
      let newTitle := strTrim ((splitOnSeq "! Title: ".toList line).foldl (· ++ ·) [])
      scanHeaderBody { information with title := newTitle } lineNumber rest
    else if lineNumber > 50 then information
    else scanHeaderBody information (lineNumber + 1) rest

/-- The static `AdblockContentFiltersProfile::loadHeader` on the lines of
an existing profile file: the first line must contain `[Adblock`
(case-insensitively), the body is scanned by `scanHeaderBody`.  (The
`QString::remove` of the title marker deletes every occurrence, modelled
by joining the `splitOnSeq` parts.) -/
def loadHeaderScan (lines : List (List Char)) : HeaderInformation :=
  match lines with
  | [] => { error := .ParseError }
  | header :: body =>
    if !strContainsCI header "[Adblock".toList then { error := .ParseError }
    else scanHeaderBody {} 1 body

/-- Profile flags (`ContentFiltersProfile::ProfileFlags`, the two bits
used by this translation unit). -/
structure ProfileFlags where
  hasCustomTitle : Bool := false
  hasCustomUpdateUrl : Bool := false
deriving DecidableEq, Repr

/-- The profile metadata fields of `AdblockContentFiltersProfile` that the
member `loadHeader` can observe or change (the data-fetch job and the
asynchronous `update()` trigger are outside the model; `update()` touches
none of these fields except possibly the error state, which the member is
allowed to change anyway). -/
structure Profile where
  name : List Char := []
  title : List Char := []
  updateUrl : List Char := []
  languages : List (List Char) := []
  updateInterval : Int := 0
  category : Nat := 0
  error : ProfileError := .NoError
  flags : ProfileFlags := {}
  isEmpty : Bool := true
  wasLoaded : Bool := false
deriving DecidableEq, Repr

/-- The member `AdblockContentFiltersProfile::loadHeader` (lines 90-112 of
the source): on a scan error only the error state changes; otherwise the
title is replaced when no custom title is set and the scanned title is
non-empty, and the emptiness hint is copied. -/
def loadHeaderMember (profile : Profile) (information : HeaderInformation) : Profile :=
  if information.error ≠ .NoError then { profile with error := information.error }
  else
    let profile :=
      if !profile.flags.hasCustomTitle && !information.title.isEmpty then
        { profile with title := information.title }
      else profile
    { profile with isEmpty := information.isEmpty }

/-! ### The update handler (`handleJobFinished`) -/

/-- Outcome of the pure part of `handleJobFinished` on a successful
download. -/
inductive UpdateOutcome where
  | parseError
  | checksumError
  | success (data : List Char)
deriving DecidableEq, Repr

/-- The line loop of `handleJobFinished` (lines 659-674 of the source):
non-empty lines are appended to the canonical buffer after a newline,
except that a line beginning `! Checksum:` scanned while no checksum has
been captured yet has its trimmed remainder captured instead. -/
def buildData (data checksum : List Char) : List (List Char) → List Char × List Char
  | [] => (data, checksum)
  | line :: rest =>
    if !line.isEmpty then
      if checksum.isEmpty && strStartsWith line "! Checksum:".toList then
        buildData data (strTrim (line.drop 11)) rest
      else buildData (data ++ '\n' :: line) checksum rest
    else buildData data checksum rest

/-- The pure part of `AdblockContentFiltersProfile::handleJobFinished` on
a successful download, parameterised by the MD5 digest function of
`QCryptographicHash` (an external library primitive): header validation,
canonical-buffer construction, checksum capture and validation.  The
declared checksum is compared against the base64 digest with the two
characters at positions 22-23 removed (`QByteArray::remove(22, 2)`). -/
def handleJobFinishedModel (md5 : List Char → List Nat) (header : List Char)
    (body : List (List Char)) : UpdateOutcome :=
  if !strContains header "[Adblock".toList then .parseError
  else
    let dc := buildData header [] body
    if !dc.2.isEmpty && removeMid (toBase64 (md5 dc.1)) 22 2 ≠ dc.2 then .checksumError
    else .success dc.1

/-! ### The evaluation trace of a walk

The specification describes the matcher's result in terms of the sequence
of rule evaluations performed during the walk: the first exception wins,
otherwise the most recent block.  The trace functions below enumerate, in
evaluation order, the `checkRuleMatch` results of every rule the walk
would evaluate (without the exception short-circuit; everything before
the first exception coincides with what the matcher actually runs). -/

/-- The rule evaluations of one `evaluateNodeRules` call, in order. -/
def nodeRulesTrace (node : Node) (currentRule : List Char) (request : Request) :
    List CheckResult :=
  node.rules.map (fun r => checkRuleMatch r currentRule request)

/-- The evaluations of the end-of-slice loop (`csEnd`), in order. -/
def endTrace (node : Node) (currentRule : List Char) (request : Request) :
    List Node → List CheckResult
  | [] => []
  | ch :: t =>
    (if ch.value = '^' then nodeRulesTrace node currentRule request else []) ++
      endTrace node currentRule request t

mutual
/-- The evaluations of one `csLoop` run, in order. -/
def loopTrace (node : Node) (s currentRule : List Char) (request : Request) :
    List CheckResult :=
  match node, s with
  | node, [] =>
    nodeRulesTrace node currentRule request ++
      endTrace node currentRule request node.children
  | .mk v ch rs, c :: rest =>
    nodeRulesTrace (.mk v ch rs) currentRule request ++
      scanTrace c rest currentRule request ch
termination_by (sizeOf node, 1, 0)

/-- The evaluations of one `csScan` run, in order. -/
def scanTrace (c : Char) (rest currentRule : List Char) (request : Request) :
    List Node → List CheckResult
  | [] => []
  | next :: others =>
    (if next.value = '*' then
      wildTrace next (c :: rest) currentRule request (List.range (c :: rest).length)
    else []) ++
    ((if next.value = '^' && sepMatches c then
      loopTrace next (c :: rest) currentRule request
    else []) ++
    (if next.value = c then loopTrace next rest (currentRule ++ [c]) request
    else scanTrace c rest currentRule request others))
termination_by children => (sizeOf children, 0, 0)

/-- The evaluations of one `csWild` run, in order. -/
def wildTrace (next : Node) (wss currentRule : List Char) (request : Request) :
    List Nat → List CheckResult
  | [] => []
  | k :: kt =>
    loopTrace next (wss.drop k) (currentRule ++ wss.take k) request ++
      wildTrace next wss currentRule request kt
termination_by ks => (sizeOf next, 3, sizeOf ks)
end

/-- The evaluations of the suffix loop of `checkUrl`, in order. -/
def checkUrlLoopTrace (root : Node) (request : Request) : List Nat → List CheckResult
  | [] => []
  | i :: t =>
    loopTrace root (request.requestUrl.drop i) [] request ++
      checkUrlLoopTrace root request t

/-- The full evaluation trace of one `checkUrl` call. -/
def checkUrlTrace (root : Node) (request : Request) : List CheckResult :=
  checkUrlLoopTrace root request (List.range request.requestUrl.length)

/-- `combineAux` over a concatenation, bind form (the `match` is the
early-return pattern of the wildcard loop). -/
theorem combineAux_bind (res : CheckResult) (t1 t2 : List CheckResult) :
    combineAux res (t1 ++ t2) =
      (match combineE res t1 with
       | .error e => e
       | .ok r => combineAux r t2) := by
  simp only [combineAux, combineE_append]
  match combineE res t1 with
  | .error e => rfl
  | .ok r => rfl

/-- `combineE` over a concatenation whose first segment is handled
through its aggregate, exactly the two-branch pattern of the loops. -/
theorem combineE_split (res : CheckResult) (t1 t2 : List CheckResult) :
    combineE res (t1 ++ t2) =
      (let a := combineAux {} t1;
       if a.isBlocked then combineE a t2
       else if a.isException then .error a
       else combineE res t2) := by
  rw [combineE_append, combineE_shift res t1]
  simp only [combineAux]
  match h : combineE {} t1 with
  | .error e =>
    have hf := combineE_error {} t1 e h
    simp [hf.1, hf.2]
  | .ok a =>
    rcases combineE_ok {} t1 a h with ha | ha
    · have h1 : a.isBlocked = false := by rw [ha]
      have h2 : a.isException = false := by rw [ha]
      simp [h1, h2]
    · simp [ha]

/-- The loop body of `evaluateNodeRules` is `combineAux` over the node's
rule evaluations. -/
theorem evaluateNodeRulesAux_eq (currentRule : List Char) (request : Request)
    (rules : List Rule) (res : CheckResult) :
    evaluateNodeRulesAux currentRule request res rules =
      combineAux res (rules.map (fun r => checkRuleMatch r currentRule request)) := by
  induction rules generalizing res with
  | nil => simp [evaluateNodeRulesAux, combineAux, combineE]
  | cons r rs ih =>
    simp only [evaluateNodeRulesAux, List.map_cons, combineAux, combineE]
    by_cases hb : (checkRuleMatch r currentRule request).isBlocked
    · simp only [hb, if_true]
      exact ih _
    · by_cases he : (checkRuleMatch r currentRule request).isException
      · simp [hb, he]
      · simp only [hb, he, if_false]
        exact ih _

/-- `evaluateNodeRules` is `combineAux` over the node's rule trace. -/
theorem evaluateNodeRules_eq (node : Node) (currentRule : List Char) (request : Request) :
    evaluateNodeRules node currentRule request =
      combineAux {} (nodeRulesTrace node currentRule request) :=
  evaluateNodeRulesAux_eq currentRule request node.rules {}

/-- `csEnd` is `combineAux` over the end-of-slice trace. -/
theorem csEnd_eq (node : Node) (currentRule : List Char) (request : Request)
    (children : List Node) (res : CheckResult) :
    csEnd node currentRule request res children =
      combineAux res (endTrace node currentRule request children) := by
  induction children generalizing res with
  | nil => simp [csEnd, endTrace, combineAux, combineE]
  | cons ch t ih =>
    simp only [csEnd, endTrace]
    by_cases hv : ch.value = '^'
    · simp only [hv, if_true]
      rw [combineAux_split, evaluateNodeRules_eq]
      simp only []
      by_cases hb : (combineAux {} (nodeRulesTrace node currentRule request)).isBlocked
      · simp only [hb, if_true]
        exact ih _
      · by_cases he : (combineAux {} (nodeRulesTrace node currentRule request)).isException
        · simp [hb, he]
        · simp only [hb, he, if_false]
          exact ih _
    · simp only [hv, if_false, List.nil_append]
      exact ih res

/-- The separator and descend stages of one `csScan` step, factored out
of `csScan_eq` (the hypotheses are the induction hypotheses for the three
possible continuations). -/
theorem csScanStage2 (c : Char) (rest currentRule : List Char) (request : Request)
    (r1 : CheckResult) (next : Node) (others : List Node)
    (hsub : ∀ r, csLoop next (c :: rest) currentRule request r =
      combineAux r (loopTrace next (c :: rest) currentRule request))
    (hdesc : ∀ r, csLoop next rest (currentRule ++ [c]) request r =
      combineAux r (loopTrace next rest (currentRule ++ [c]) request))
    (hothers : ∀ r, csScan c rest currentRule request r others =
      combineAux r (scanTrace c rest currentRule request others)) :
    (if next.value = '^' && sepMatches c then
      (let currentResult := checkUrlSubstring next (c :: rest) currentRule request
       if currentResult.isBlocked then
         (if next.value = c then
           csLoop next rest (currentRule ++ [c]) request currentResult
         else csScan c rest currentRule request currentResult others)
       else if currentResult.isException then currentResult
       else
         (if next.value = c then csLoop next rest (currentRule ++ [c]) request r1
         else csScan c rest currentRule request r1 others))
    else
      (if next.value = c then csLoop next rest (currentRule ++ [c]) request r1
      else csScan c rest currentRule request r1 others)) =
      combineAux r1
        ((if next.value = '^' && sepMatches c then
          loopTrace next (c :: rest) currentRule request
        else []) ++
        (if next.value = c then loopTrace next rest (currentRule ++ [c]) request
        else scanTrace c rest currentRule request others)) := by
  have hstage3 : ∀ r : CheckResult,
      (if next.value = c then csLoop next rest (currentRule ++ [c]) request r
      else csScan c rest currentRule request r others) =
        combineAux r
          (if next.value = c then loopTrace next rest (currentRule ++ [c]) request
          else scanTrace c rest currentRule request others) := by
    intro r
    by_cases hc : next.value = c
    · simp only [hc, if_true]
      exact hdesc r
    · simp only [hc, if_false]
      exact hothers r
  by_cases hsep : next.value = '^' && sepMatches c
  · simp only [hsep, if_true]
    rw [combineAux_split]
    simp only []
    have hcs : checkUrlSubstring next (c :: rest) currentRule request =
        combineAux {} (loopTrace next (c :: rest) currentRule request) := by
      rw [checkUrlSubstring, hsub]
    rw [hcs, hstage3, hstage3]
  · simp only [hsep, if_false, List.nil_append]
    exact hstage3 r1

mutual
/-- `csLoop` is `combineAux` over its trace. -/
theorem csLoop_eq (node : Node) (s currentRule : List Char) (request : Request)
    (res : CheckResult) :
    csLoop node s currentRule request res =
      combineAux res (loopTrace node s currentRule request) := by
  match node, s with
  | node, [] =>
    simp only [csLoop, loopTrace]
    rw [combineAux_split, evaluateNodeRules_eq,
      csEnd_eq node currentRule request node.children,
      csEnd_eq node currentRule request node.children]
  | .mk v ch rs, c :: rest =>
    have hscan1 := csScan_eq c rest currentRule request
      (evaluateNodeRules (.mk v ch rs) currentRule request) ch
    have hscan2 := csScan_eq c rest currentRule request res ch
    simp only [csLoop, loopTrace]
    rw [combineAux_split, hscan1, hscan2, evaluateNodeRules_eq]
termination_by (sizeOf node, 1, 0)

/-- `csScan` is `combineAux` over its trace. -/
theorem csScan_eq (c : Char) (rest currentRule : List Char) (request : Request)
    (res : CheckResult) (children : List Node) :
    csScan c rest currentRule request res children =
      combineAux res (scanTrace c rest currentRule request children) := by
  match children with
  | [] => simp [csScan, scanTrace, combineAux, combineE]
  | next :: others =>
    have hwild := csWild_eq next (c :: rest) currentRule request res
      (List.range (c :: rest).length)
    have hsub : ∀ r, csLoop next (c :: rest) currentRule request r =
        combineAux r (loopTrace next (c :: rest) currentRule request) :=
      fun r => csLoop_eq next (c :: rest) currentRule request r
    have hdesc : ∀ r, csLoop next rest (currentRule ++ [c]) request r =
        combineAux r (loopTrace next rest (currentRule ++ [c]) request) :=
      fun r => csLoop_eq next rest (currentRule ++ [c]) request r
    have hothers : ∀ r, csScan c rest currentRule request r others =
        combineAux r (scanTrace c rest currentRule request others) :=
      fun r => csScan_eq c rest currentRule request r others
    simp only [csScan, scanTrace]
    rw [combineAux_bind res]
    by_cases hstar : next.value = '*'
    · rw [if_pos hstar, if_pos hstar, hwild]
      cases hE : combineE res (wildTrace next (c :: rest) currentRule request
          (List.range (c :: rest).length)) with
      | error e => rfl
      | ok r1 =>
        exact csScanStage2 c rest currentRule request r1 next others hsub hdesc hothers
    · rw [if_neg hstar, if_neg hstar]
      have hnil : combineE res ([] : List CheckResult) = .ok res := rfl
      rw [hnil]
      exact csScanStage2 c rest currentRule request res next others hsub hdesc hothers
termination_by (sizeOf children, 0, 0)

/-- `csWild` is `combineE` over its trace. -/
theorem csWild_eq (next : Node) (wss currentRule : List Char) (request : Request)
    (res : CheckResult) (ks : List Nat) :
    csWild next wss currentRule request res ks =
      combineE res (wildTrace next wss currentRule request ks) := by
  match ks with
  | [] => simp [csWild, wildTrace, combineE]
  | k :: kt =>
    have hcs : checkUrlSubstring next (wss.drop k) (currentRule ++ wss.take k) request =
        combineAux {} (loopTrace next (wss.drop k) (currentRule ++ wss.take k) request) := by
      rw [checkUrlSubstring, csLoop_eq]
    have ih1 := csWild_eq next wss currentRule request
      (checkUrlSubstring next (wss.drop k) (currentRule ++ wss.take k) request) kt
    have ih2 := csWild_eq next wss currentRule request res kt
    simp only [csWild, wildTrace]
    rw [combineE_split]
    simp only []
    rw [ih1, ih2, hcs]
termination_by (sizeOf next, 3, sizeOf ks)
end

/-- The suffix loop of `checkUrl` is `combineAux` over its trace. -/
theorem checkUrlLoop_eq (root : Node) (request : Request) (res : CheckResult)
    (is : List Nat) :
    checkUrlLoop root request res is =
      combineAux res (checkUrlLoopTrace root request is) := by
  induction is generalizing res with
  | nil => simp [checkUrlLoop, checkUrlLoopTrace, combineAux, combineE]
  | cons i t ih =>
    simp only [checkUrlLoop, checkUrlLoopTrace]
    rw [combineAux_split]
    simp only []
    have hcs : checkUrlSubstring root (request.requestUrl.drop i) [] request =
        combineAux {} (loopTrace root (request.requestUrl.drop i) [] request) := by
      rw [checkUrlSubstring, csLoop_eq]
    rw [hcs, ih, ih]

/-- `checkUrl` is `combineAux` over the full walk trace. -/
theorem checkUrl_eq_trace (root : Node) (request : Request) :
    checkUrl root request = combineAux {} (checkUrlTrace root request) :=
  checkUrlLoop_eq root request {} (List.range request.requestUrl.length)

/-- Folding with the two-branch pattern over results that are never
simultaneously block and exception yields the first exception if there is
one, and otherwise the most recent block (or the start value). -/
theorem combineAux_char (t : List CheckResult)
    (hflags : ∀ r ∈ t, r.isException = true → r.isBlocked = false) :
    ∀ res : CheckResult, res.isException = false →
      combineAux res t =
        (match t.find? (fun r => r.isException) with
         | some e => e
         | none => ((t.filter (fun r => r.isBlocked)).getLast?).getD res) := by
  induction t with
  | nil => intro res hres; simp [combineAux, combineE, List.find?]
  | cons r t ih =>
    intro res hres
    have hflagr := hflags r (by simp)
    have hflagst : ∀ x ∈ t, x.isException = true → x.isBlocked = false :=
      fun x hx => hflags x (List.mem_cons_of_mem r hx)
    by_cases hb : r.isBlocked
    · have he : r.isException = false := by
        cases hx : r.isException
        · rfl
        · exact absurd hb (by simp [hflagr hx])
      have h1 : combineAux res (r :: t) = combineAux r t := by
        simp [combineAux, combineE, hb]
      rw [h1, ih hflagst r he]
      simp only [List.find?, he, List.filter, hb]
      cases hf : t.find? (fun x => x.isException) <;>
        cases hl : (t.filter (fun x => x.isBlocked)).getLast? <;>
          simp [List.getLast?_cons, hl]
    · by_cases he : r.isException
      · have h1 : combineAux res (r :: t) = r := by
          simp [combineAux, combineE, hb, he]
        rw [h1]
        simp [List.find?, he]
      · have h1 : combineAux res (r :: t) = combineAux res t := by
          simp [combineAux, combineE, hb, he]
        rw [h1, ih hflagst res hres]
        simp only [List.find?, he, List.filter, hb]

/-- Every result in a node-rule trace obeys the exception flags. -/
theorem nodeRulesTrace_flags (node : Node) (currentRule : List Char) (request : Request) :
    ∀ r ∈ nodeRulesTrace node currentRule request,
      r.isException = true → r.isBlocked = false := by
  intro r hr
  simp only [nodeRulesTrace, List.mem_map] at hr
  obtain ⟨rule, _, hrule⟩ := hr
  exact hrule ▸ checkRuleMatch_flags rule currentRule request

/-- Every result in an end-of-slice trace obeys the exception flags. -/
theorem endTrace_flags (node : Node) (currentRule : List Char) (request : Request)
    (children : List Node) :
    ∀ r ∈ endTrace node currentRule request children,
      r.isException = true → r.isBlocked = false := by
  induction children with
  | nil => intro r hr; simp [endTrace] at hr
  | cons ch t ih =>
    intro r hr
    simp only [endTrace, List.mem_append] at hr
    rcases hr with hr | hr
    · by_cases hv : ch.value = '^'
      · rw [if_pos hv] at hr
        exact nodeRulesTrace_flags node currentRule request r hr
      · rw [if_neg hv] at hr
        simp at hr
    · exact ih r hr

mutual
/-- Every result in a `csLoop` trace obeys the exception flags. -/
theorem loopTrace_flags (node : Node) (s currentRule : List Char) (request : Request) :
    ∀ r ∈ loopTrace node s currentRule request,
      r.isException = true → r.isBlocked = false := by
  match node, s with
  | node, [] =>
    intro r hr
    simp only [loopTrace, List.mem_append] at hr
    rcases hr with hr | hr
    · exact nodeRulesTrace_flags node currentRule request r hr
    · exact endTrace_flags node currentRule request node.children r hr
  | .mk v ch rs, c :: rest =>
    intro r hr
    simp only [loopTrace, List.mem_append] at hr
    rcases hr with hr | hr
    · exact nodeRulesTrace_flags (.mk v ch rs) currentRule request r hr
    · exact scanTrace_flags c rest currentRule request ch r hr
termination_by (sizeOf node, 1, 0)

/-- Every result in a `csScan` trace obeys the exception flags. -/
theorem scanTrace_flags (c : Char) (rest currentRule : List Char) (request : Request)
    (children : List Node) :
    ∀ r ∈ scanTrace c rest currentRule request children,
      r.isException = true → r.isBlocked = false := by
  match children with
  | [] => intro r hr; simp [scanTrace] at hr
  | next :: others =>
    intro r hr
    simp only [scanTrace, List.mem_append] at hr
    rcases hr with hr | hr | hr
    · by_cases hstar : next.value = '*'
      · rw [if_pos hstar] at hr
        exact wildTrace_flags next (c :: rest) currentRule request
          (List.range (c :: rest).length) r hr
      · rw [if_neg hstar] at hr
        simp at hr
    · by_cases hsep : next.value = '^' && sepMatches c
      · rw [if_pos hsep] at hr
        exact loopTrace_flags next (c :: rest) currentRule request r hr
      · rw [if_neg hsep] at hr
        simp at hr
    · by_cases hc : next.value = c
      · rw [if_pos hc] at hr
        exact loopTrace_flags next rest (currentRule ++ [c]) request r hr
      · rw [if_neg hc] at hr
        exact scanTrace_flags c rest currentRule request others r hr
termination_by (sizeOf children, 0, 0)

/-- Every result in a `csWild` trace obeys the exception flags. -/
theorem wildTrace_flags (next : Node) (wss currentRule : List Char) (request : Request)
    (ks : List Nat) :
    ∀ r ∈ wildTrace next wss currentRule request ks,
      r.isException = true → r.isBlocked = false := by
  match ks with
  | [] => intro r hr; simp [wildTrace] at hr
  | k :: kt =>
    intro r hr
    simp only [wildTrace, List.mem_append] at hr
    rcases hr with hr | hr
    · exact loopTrace_flags next (wss.drop k) (currentRule ++ wss.take k) request r hr
    · exact wildTrace_flags next wss currentRule request kt r hr
termination_by (sizeOf next, 3, sizeOf ks)
end

/-- Every result in a full walk trace obeys the exception flags. -/
theorem checkUrlTrace_flags (root : Node) (request : Request) :
    ∀ r ∈ checkUrlTrace root request, r.isException = true → r.isBlocked = false := by
  unfold checkUrlTrace
  generalize List.range request.requestUrl.length = is
  induction is with
  | nil => intro r hr; simp [checkUrlLoopTrace] at hr
  | cons i t ih =>
    intro r hr
    simp only [checkUrlLoopTrace, List.mem_append] at hr
    rcases hr with hr | hr
    · exact loopTrace_flags root (request.requestUrl.drop i) [] request r hr
    · exact ih r hr

/-- C2: for every loaded profile (trie root) and every request, `checkUrl`
returns exactly one result (it is a function); if any rule evaluated
anywhere during the walk matches as an exception, the first such exception
is returned, with `isException = true` and `isBlocked = false`; otherwise
the most recent matching block result of the walk is returned (the default
pass record when there is none).  Exception takes precedence over block,
which takes precedence over pass. -/
theorem checkUrl_first_exception_or_last_block (root : Node) (request : Request) :
    (checkUrl root request =
      (match (checkUrlTrace root request).find? (fun r => r.isException) with
       | some e => e
       | none =>
         (((checkUrlTrace root request).filter (fun r => r.isBlocked)).getLast?).getD {})) ∧
    (∀ e, (checkUrlTrace root request).find? (fun r => r.isException) = some e →
      e.isException = true ∧ e.isBlocked = false) := by
  constructor
  · rw [checkUrl_eq_trace]
    exact combineAux_char _ (checkUrlTrace_flags root request) {} rfl
  · intro e he
    have h1 : e.isException = true := by simpa using List.find?_some he
    exact ⟨h1, checkUrlTrace_flags root request e (List.mem_of_find?_eq_some he) h1⟩

/-! ### Single-rule chain tries (for the insert-then-query round trip) -/

/-- The linear trie chain left by inserting a pattern into an empty node:
one node per remaining pattern character, the rule at the end. -/
def chainNode (v : Char) (q : List Char) (rule : Rule) : Node :=
  match q with
  | [] => .mk v [] [rule]
  | c :: rest => .mk v [chainNode c rest rule] []

/-- Inserting a pattern under a node without children builds a chain. -/
theorem insertPattern_empty (q : List Char) (rule : Rule) :
    ∀ v, insertPattern (.mk v [] []) q rule = chainNode v q rule := by
  induction q with
  | nil => intro v; simp [insertPattern, chainNode]
  | cons c rest ih =>
    intro v
    simp only [insertPattern, insertChild, chainNode, ih c]
    split_ifs <;> simp

/-- `strStartsWith` of a prefix implies `strContains`. -/
theorem strContains_of_startsWith {s p : List Char} (h : strStartsWith s p = true) :
    strContains s p = true := by
  cases s <;> simp [strContains, h]

/-- A `csScan` step over a single child that is neither a wildcard nor a
separator: descend when its value matches, keep the result otherwise. -/
theorem csScan_single (c : Char) (rest currentRule : List Char) (req : Request)
    (res : CheckResult) (next : Node)
    (hstar : next.value ≠ '*') (hsep : next.value ≠ '^') :
    csScan c rest currentRule req res [next] =
      (if next.value = c then csLoop next rest (currentRule ++ [c]) req res else res) := by
  simp only [csScan]
  rw [if_neg hstar]
  have hcond : (decide (next.value = '^') && sepMatches c) = false := by simp [hsep]
  simp [hcond, csScan]

/-- Running the walk loop down a chain trie: when the pattern is a prefix
of the slice the chain's rule is evaluated once, with `currentRule` ending
exactly in the pattern; otherwise the walk falls off the chain and keeps
the running result. -/
theorem chain_csLoop (rule : Rule) (req : Request) :
    ∀ (q : List Char) (v : Char) (s currentRule : List Char) (res : CheckResult),
      (∀ c ∈ q, c ≠ '*') → (∀ c ∈ q, c ≠ '^') →
      csLoop (chainNode v q rule) s currentRule req res =
        (if strStartsWith s q then
          (let cr := checkRuleMatch rule (currentRule ++ q) req
           if cr.isBlocked then cr else if cr.isException then cr else res)
        else res) := by
  intro q
  induction q with
  | nil =>
    intro v s currentRule res _ _
    have hq : strStartsWith s [] = true := by cases s <;> rfl
    rw [if_pos hq]
    simp only [chainNode, List.append_nil]
    by_cases hb : (checkRuleMatch rule currentRule req).isBlocked
    · have heval : evaluateNodeRules (.mk v [] [rule]) currentRule req =
          checkRuleMatch rule currentRule req := by
        simp [evaluateNodeRules, Node.rules, evaluateNodeRulesAux, hb]
      cases s with
      | nil => simp [csLoop, heval, hb, csEnd, Node.children]
      | cons c rest => simp [csLoop, heval, hb, csScan]
    · by_cases he : (checkRuleMatch rule currentRule req).isException
      · have heval : evaluateNodeRules (.mk v [] [rule]) currentRule req =
            checkRuleMatch rule currentRule req := by
          simp [evaluateNodeRules, Node.rules, evaluateNodeRulesAux, hb, he]
        cases s with
        | nil => simp [csLoop, heval, hb, he]
        | cons c rest => simp [csLoop, heval, hb, he]
      · have heval : evaluateNodeRules (.mk v [] [rule]) currentRule req =
            ({} : CheckResult) := by
          simp [evaluateNodeRules, Node.rules, evaluateNodeRulesAux, hb, he]
        cases s with
        | nil => simp [csLoop, heval, hb, he, csEnd, Node.children]
        | cons c rest => simp [csLoop, heval, hb, he, csScan]
  | cons qc qt ih =>
    intro v s currentRule res hstar hsep
    have hqc_star : qc ≠ '*' := hstar qc (by simp)
    have hqc_sep : qc ≠ '^' := hsep qc (by simp)
    have hstar' : ∀ c ∈ qt, c ≠ '*' := fun c hc => hstar c (by simp [hc])
    have hsep' : ∀ c ∈ qt, c ≠ '^' := fun c hc => hsep c (by simp [hc])
    have hval : (chainNode qc qt rule).value = qc := by
      cases qt <;> rfl
    have heval : evaluateNodeRules (.mk v [chainNode qc qt rule] []) currentRule req =
        ({} : CheckResult) := by
      simp [evaluateNodeRules, Node.rules, evaluateNodeRulesAux]
    cases s with
    | nil =>
      have hq : strStartsWith [] (qc :: qt) = false := rfl
      rw [hq, if_neg (by simp)]
      simp only [chainNode, csLoop, heval]
      simp [csEnd, Node.children, hval, hqc_sep]
    | cons c rest =>
      simp only [chainNode, csLoop, heval]
      rw [if_neg (by simp : ¬(({} : CheckResult).isBlocked = true)),
        if_neg (by simp : ¬(({} : CheckResult).isException = true))]
      rw [csScan_single c rest currentRule req res (chainNode qc qt rule)
        (by rw [hval]; exact hqc_star) (by rw [hval]; exact hqc_sep)]
      rw [hval]
      by_cases hc : qc = c
      · subst hc
        rw [if_pos rfl, ih qc rest (currentRule ++ [qc]) res hstar' hsep']
        have harr : (currentRule ++ [qc]) ++ qt = currentRule ++ (qc :: qt) := by simp
        have hpref : strStartsWith (qc :: rest) (qc :: qt) = strStartsWith rest qt := by
          simp [strStartsWith]
        rw [harr, hpref]
      · rw [if_neg hc]
        have hpref : strStartsWith (c :: rest) (qc :: qt) = false := by
          simp only [strStartsWith, Bool.and_eq_false_iff]
          exact Or.inl (by simp; exact fun h => hc h.symm)
        rw [hpref, if_neg (by simp)]

/-- The fold inside `parseDomainsInto` changes only the two domain
lists. -/
theorem domainsFold_pres (ds : List (List Char)) : ∀ a : Rule,
    ((ds.foldl (fun acc d =>
      if strStartsWith d ['~'] then
        { acc with allowedDomains := acc.allowedDomains ++ [d.drop 1] }
      else { acc with blockedDomains := acc.blockedDomains ++ [d] }) a).rule = a.rule ∧
    (ds.foldl (fun acc d =>
      if strStartsWith d ['~'] then
        { acc with allowedDomains := acc.allowedDomains ++ [d.drop 1] }
      else { acc with blockedDomains := acc.blockedDomains ++ [d] }) a).isException =
        a.isException ∧
    (ds.foldl (fun acc d =>
      if strStartsWith d ['~'] then
        { acc with allowedDomains := acc.allowedDomains ++ [d.drop 1] }
      else { acc with blockedDomains := acc.blockedDomains ++ [d] }) a).ruleOptions =
        a.ruleOptions ∧
    (ds.foldl (fun acc d =>
      if strStartsWith d ['~'] then
        { acc with allowedDomains := acc.allowedDomains ++ [d.drop 1] }
      else { acc with blockedDomains := acc.blockedDomains ++ [d] }) a).ruleExceptions =
        a.ruleExceptions) := by
  induction ds with
  | nil => intro a; exact ⟨rfl, rfl, rfl, rfl⟩
  | cons d dt ih =>
    intro a
    simp only [List.foldl_cons]
    split_ifs <;> exact ih _

/-- The domain fold changes only the two domain lists of the rule. -/
theorem parseDomainsInto_pres (acc : Rule) (tok : List Char) :
    (parseDomainsInto acc tok).rule = acc.rule ∧
      (parseDomainsInto acc tok).isException = acc.isException ∧
      (parseDomainsInto acc tok).ruleOptions = acc.ruleOptions ∧
      (parseDomainsInto acc tok).ruleExceptions = acc.ruleExceptions := by
  unfold parseDomainsInto
  exact domainsFold_pres _ acc

/-- `parseOptionToken` never changes the raw line or the exception flag of
the rule under construction. -/
theorem parseOptionToken_pres (acc : Rule) (tok : List Char) (r : Rule)
    (h : parseOptionToken acc tok = some r) :
    r.rule = acc.rule ∧ r.isException = acc.isException := by
  unfold parseOptionToken at h
  dsimp only at h
  split at h
  · split_ifs at h <;> (cases h; exact ⟨rfl, rfl⟩)
  · split_ifs at h <;>
      first
        | (cases h;
           exact ⟨(parseDomainsInto_pres acc tok).1, (parseDomainsInto_pres acc tok).2.1⟩)
        | exact absurd h (by simp)

/-- `parseOptions` never changes the raw line or the exception flag. -/
theorem parseOptions_pres (toks : List (List Char)) :
    ∀ (acc r : Rule), parseOptions acc toks = some r →
      r.rule = acc.rule ∧ r.isException = acc.isException := by
  induction toks with
  | nil =>
    intro acc r h
    simp [parseOptions] at h
    simp [h]
  | cons tok rest ih =>
    intro acc r h
    simp only [parseOptions] at h
    cases ht : parseOptionToken acc tok with
    | none => rw [ht] at h; exact absurd h (by simp)
    | some acc2 =>
      rw [ht] at h
      obtain ⟨h1, h2⟩ := ih acc2 r h
      obtain ⟨h3, h4⟩ := parseOptionToken_pres acc tok acc2 ht
      exact ⟨h1.trans h3, h2.trans h4⟩

/-- A successful `parseAnchors` carries the raw line of the rule. -/
theorem parseAnchors_rule (raw line : List Char) (options : List (List Char))
    (r : Rule) (p : List Char)
    (h : parseAnchors raw line options = some (r, p)) : r.rule = raw := by
  unfold parseAnchors at h
  dsimp only at h
  split at h
  · rename_i definition hdef
    cases h
    exact (parseOptions_pres _ _ _ hdef).1
  · exact absurd h (by simp)

/-- A successfully parsed network rule carries the raw line. -/
theorem parseNetworkRule_rule (raw : List Char) (w : Bool) (r : Rule) (p : List Char)
    (h : parseNetworkRule raw w = some (r, p)) : r.rule = raw := by
  unfold parseNetworkRule at h
  dsimp only at h
  repeat' split at h
  all_goals
    first
      | exact parseAnchors_rule raw _ _ r p h
      | exact absurd h (by simp)

/-- The network path of `parseRuleLine`: a line that is not blank, not a
comment and not cosmetic, and whose network parse succeeds, only inserts
the parsed rule's residual pattern into the trie. -/
theorem parseRuleLine_network (mode : CosmeticFiltersMode) (w : Bool)
    (st : ProfileState) (raw : List Char) (r : Rule) (p : List Char)
    (h1 : raw ≠ []) (h2 : strStartsWith raw ['!'] = false)
    (h3 : strContains raw "##".toList = false)
    (h4 : strContains raw "#@#".toList = false)
    (hp : parseNetworkRule raw w = some (r, p)) :
    parseRuleLine mode w st raw = { st with root := insertPattern st.root p r } := by
  have h3l : strContains raw ['#', '#'] = false := by simpa using h3
  have h4l : strContains raw ['#', '@', '#'] = false := by simpa using h4
  have hss : strStartsWith raw ['#', '#'] = false := by
    cases hx : strStartsWith raw ['#', '#']
    · rfl
    · exact absurd (strContains_of_startsWith hx) (by simp [h3l])
  simp [parseRuleLine, h1, h2, h3, h4, h3l, h4l, hss, hp]

/-- When a string contains a non-empty pattern, some suffix starts with
it. -/
theorem strContains_suffix_aux (p : List Char) (hp : p ≠ []) :
    ∀ s : List Char, strContains s p = true →
      ∃ i ∈ List.range s.length, strStartsWith (s.drop i) p = true := by
  intro s
  induction s with
  | nil =>
    intro h
    rw [strContains] at h
    cases p with
    | nil => exact absurd rfl hp
    | cons a b => simp [strStartsWith] at h
  | cons c t ih =>
    intro h
    by_cases hS : strStartsWith (c :: t) p = true
    · exact ⟨0, by simp [List.mem_range], by simpa using hS⟩
    · have ht : strContains t p = true := by
        rw [strContains] at h
        simp only [Bool.or_eq_true] at h
        rcases h with h | h
        · exact absurd h hS
        · exact h
      obtain ⟨i, hi, hdi⟩ := ih ht
      refine ⟨i + 1, ?_, by simpa using hdi⟩
      simp only [List.mem_range] at hi ⊢
      simpa using Nat.succ_lt_succ hi

/-- When a string contains a pattern and is itself non-empty, some suffix
position in range starts with the pattern. -/
theorem strContains_suffix (s p : List Char) (h : strContains s p = true) (hs : s ≠ []) :
    ∃ i ∈ List.range s.length, strStartsWith (s.drop i) p = true := by
  cases hp : p with
  | nil =>
    refine ⟨0, ?_, ?_⟩
    · cases s with
      | nil => exact absurd rfl hs
      | cons a b => simp [List.mem_range]
    · cases s <;> rfl
  | cons a b =>
    subst hp
    exact strContains_suffix_aux (a :: b) (by simp) s h

/-- The suffix loop returns the block record when every suffix walk yields
either that record or a pass, and at least one yields the block (or the
running result already is the block). -/
theorem checkUrlLoop_hits (root : Node) (req : Request) (B : CheckResult)
    (hBb : B.isBlocked = true)
    (helem : ∀ i, checkUrlSubstring root (req.requestUrl.drop i) [] req = B ∨
      checkUrlSubstring root (req.requestUrl.drop i) [] req = {}) :
    ∀ (is : List Nat) (res : CheckResult), (res = B ∨ res = {}) →
      ((∃ i ∈ is, checkUrlSubstring root (req.requestUrl.drop i) [] req = B) ∨ res = B) →
      checkUrlLoop root req res is = B := by
  intro is
  induction is with
  | nil =>
    intro res _ hex
    rcases hex with ⟨i, hi, _⟩ | hB
    · simp at hi
    · simp [checkUrlLoop, hB]
  | cons i t ih =>
    intro res hres hex
    simp only [checkUrlLoop]
    rcases helem i with he | he
    · rw [he, if_pos hBb]
      exact ih B (Or.inl rfl) (Or.inr rfl)
    · rw [he, if_neg (by simp), if_neg (by simp)]
      apply ih res hres
      rcases hex with ⟨j, hj, hjB⟩ | hB
      · rcases List.mem_cons.mp hj with rfl | hjt
        · have hBe : B = ({} : CheckResult) := by rw [← hjB, he]
          rw [hBe] at hBb
          exact absurd hBb (by simp)
        · exact Or.inl ⟨j, hjt, hjB⟩
      · exact Or.inr hB

/-- A plain substring rule with no options, no domain lists and no anchors
fires as a block on any request whose URL contains the evaluated text,
whenever the resource type is not Popup. -/
theorem checkRuleMatch_plain (rule : Rule) (p : List Char) (req : Request)
    (hexc : rule.isException = false) (hndc : rule.needsDomainCheck = false)
    (hmatch : rule.ruleMatch = .ContainsMatch)
    (hopts : rule.ruleOptions = []) (hexcs : rule.ruleExceptions = [])
    (hbd : rule.blockedDomains = []) (had : rule.allowedDomains = [])
    (hcont : strContains req.requestUrl p = true)
    (htype : req.resourceType ≠ .PopupType) :
    checkRuleMatch rule p req = { isBlocked := true, rule := rule.rule } := by
  unfold checkRuleMatch ruleMatchModeOk ruleFinalBlocked thirdPartyAdjust ruleFireResult
  simp [hexc, hndc, hmatch, hopts, hexcs, hbd, had, hcont, htype, hasOption]

/-- C1: a line that parses as a non-exception substring rule (no anchors)
with no options and empty domain lists, whose residual pattern `p`
contains no `*` and no `^`, once inserted by `parseRuleLine` into the
empty trie, makes `checkUrl` return `isBlocked = true` with the original
raw line for every request whose URL string contains `p` (and is
non-empty) and whose resource type is not Popup. -/
theorem substring_rule_insert_then_query (mode : CosmeticFiltersMode) (w : Bool)
    (raw : List Char) (r : Rule) (p : List Char) (req : Request)
    (hraw1 : raw ≠ []) (hraw2 : strStartsWith raw ['!'] = false)
    (hraw3 : strContains raw "##".toList = false)
    (hraw4 : strContains raw "#@#".toList = false)
    (hparse : parseNetworkRule raw w = some (r, p))
    (hexc : r.isException = false) (hndc : r.needsDomainCheck = false)
    (hmatch : r.ruleMatch = .ContainsMatch)
    (hopts : r.ruleOptions = []) (hexcs : r.ruleExceptions = [])
    (hbd : r.blockedDomains = []) (had : r.allowedDomains = [])
    (hstar : ∀ c ∈ p, c ≠ '*') (hsep : ∀ c ∈ p, c ≠ '^')
    (hcont : strContains req.requestUrl p = true)
    (hurl : req.requestUrl ≠ [])
    (htype : req.resourceType ≠ .PopupType) :
    (checkUrl (parseRuleLine mode w {} raw).root req).isBlocked = true ∧
      (checkUrl (parseRuleLine mode w {} raw).root req).rule = raw := by
  have hrule : r.rule = raw := parseNetworkRule_rule raw w r p hparse
  have hst : parseRuleLine mode w {} raw =
      { ({} : ProfileState) with root := insertPattern emptyRoot p r } :=
    parseRuleLine_network mode w {} raw r p hraw1 hraw2 hraw3 hraw4 hparse
  have hchain : insertPattern emptyRoot p r = chainNode (Char.ofNat 0) p r :=
    insertPattern_empty p r (Char.ofNat 0)
  have hB : checkRuleMatch r p req = { isBlocked := true, rule := r.rule } :=
    checkRuleMatch_plain r p req hexc hndc hmatch hopts hexcs hbd had hcont htype
  have helem : ∀ i, checkUrlSubstring (chainNode (Char.ofNat 0) p r)
      (req.requestUrl.drop i) [] req = { isBlocked := true, rule := r.rule } ∨
      checkUrlSubstring (chainNode (Char.ofNat 0) p r)
        (req.requestUrl.drop i) [] req = {} := by
    intro i
    rw [checkUrlSubstring,
      chain_csLoop r req p (Char.ofNat 0) (req.requestUrl.drop i) [] {} hstar hsep]
    by_cases hpref : strStartsWith (req.requestUrl.drop i) p = true
    · rw [if_pos hpref]
      simp only [List.nil_append, hB]
      exact Or.inl rfl
    · rw [if_neg hpref]
      exact Or.inr rfl
  obtain ⟨i, hi, hdi⟩ := strContains_suffix req.requestUrl p hcont hurl
  have hhit : checkUrlSubstring (chainNode (Char.ofNat 0) p r)
      (req.requestUrl.drop i) [] req = { isBlocked := true, rule := r.rule } := by
    rw [checkUrlSubstring,
      chain_csLoop r req p (Char.ofNat 0) (req.requestUrl.drop i) [] {} hstar hsep,
      if_pos hdi]
    simp [hB]
  have hfinal : checkUrl (chainNode (Char.ofNat 0) p r) req =
      { isBlocked := true, rule := r.rule } := by
    unfold checkUrl
    exact checkUrlLoop_hits (chainNode (Char.ofNat 0) p r) req
      { isBlocked := true, rule := r.rule } rfl helem
      (List.range req.requestUrl.length) {} (Or.inr rfl)
      (Or.inl ⟨i, hi, hhit⟩)
  rw [hst]
  show (checkUrl (insertPattern emptyRoot p r) req).isBlocked = true ∧
    (checkUrl (insertPattern emptyRoot p r) req).rule = raw
  rw [hchain, hfinal, hrule]
  exact ⟨rfl, rfl⟩

/-- C1 witness: the rule line `abc` inserted into an empty trie blocks the
image request `xabcy`, echoing the raw line. -/
theorem substring_rule_insert_then_query_witness :
    (checkUrl (parseRuleLine .AllFilters true {} "abc".toList).root
      { requestUrl := "xabcy".toList, resourceType := .ImageType }).isBlocked = true ∧
    (checkUrl (parseRuleLine .AllFilters true {} "abc".toList).root
      { requestUrl := "xabcy".toList, resourceType := .ImageType }).rule = "abc".toList :=
  substring_rule_insert_then_query .AllFilters true "abc".toList
    { rule := "abc".toList } "abc".toList
    { requestUrl := "xabcy".toList, resourceType := .ImageType }
    (by decide) (by decide) (by decide) (by decide) (by decide)
    rfl rfl rfl rfl rfl rfl rfl
    (by decide) (by decide) (by decide) (by decide) (by decide)

/-! ### The ElementHide / GenericHide parsing invariant -/

/-- Appending one option to a flag list. -/
theorem hasOption_append (fl : List RuleOption) (x o : RuleOption) :
    hasOption (fl ++ [x]) o = (hasOption fl o || decide (x = o)) := by
  simp [hasOption]

/-- The invariant maintained by the option loop: the hide options appear
in `ruleOptions` only when the rule is an exception, and never appear in
`ruleExceptions`. -/
def hideOptionsInv (r : Rule) : Prop :=
  ((hasOption r.ruleOptions .ElementHideOption = true ∨
    hasOption r.ruleOptions .GenericHideOption = true) → r.isException = true) ∧
  hasOption r.ruleExceptions .ElementHideOption = false ∧
  hasOption r.ruleExceptions .GenericHideOption = false

/-- One option token preserves the hide-options invariant. -/
theorem parseOptionToken_hide (acc : Rule) (tok : List Char) (r : Rule)
    (h : parseOptionToken acc tok = some r) (hinv : hideOptionsInv acc) :
    hideOptionsInv r := by
  unfold parseOptionToken at h
  dsimp only at h
  split at h
  · rename_i option hlook
    split_ifs at h with hskip hplain hneg
    · cases h; exact hinv
    · cases h
      refine ⟨?_, hinv.2.1, hinv.2.2⟩
      intro hmem
      by_cases hEH : option = .ElementHideOption ∨ option = .GenericHideOption
      · simp only [Bool.and_eq_true, Bool.or_eq_true, not_and_or] at hskip
        rcases hskip with hskip | hskip
        · simp only [Bool.or_eq_true, Bool.not_eq_true'] at hskip
          push_neg at hskip
          simpa using hskip.1
        · exact absurd (by rcases hEH with h | h <;> simp [h]) hskip
      · push_neg at hEH
        rcases hmem with hmem | hmem <;>
          rw [hasOption_append] at hmem <;>
            simp only [Bool.or_eq_true] at hmem
        · rcases hmem with hmem | hmem
          · exact hinv.1 (Or.inl hmem)
          · exact absurd (by simpa using hmem) hEH.1
        · rcases hmem with hmem | hmem
          · exact hinv.1 (Or.inr hmem)
          · exact absurd (by simpa using hmem) hEH.2
    · cases h
      have hEH : option ≠ .ElementHideOption ∧ option ≠ .GenericHideOption := by
        simp only [Bool.and_eq_true, Bool.or_eq_true, not_and_or] at hskip
        rcases hskip with hskip | hskip
        · simp only [Bool.or_eq_true, Bool.not_eq_true'] at hskip
          push_neg at hskip
          exact absurd (by simpa using hplain) hskip.2
        · constructor <;> (intro hx; exact hskip (by simp [hx]))
      refine ⟨fun hmem => hinv.1 hmem, ?_, ?_⟩ <;>
        rw [hasOption_append] <;>
          simp only [Bool.or_eq_false_iff]
      · exact ⟨hinv.2.1, by simpa using hEH.1⟩
      · exact ⟨hinv.2.2, by simpa using hEH.2⟩
    · cases h; exact hinv
  · have hdone : hideOptionsInv (parseDomainsInto acc tok) := by
      obtain ⟨_, e2, e3, e4⟩ := parseDomainsInto_pres acc tok
      refine ⟨?_, ?_, ?_⟩
      · rw [e3, e2]; exact hinv.1
      · rw [e4]; exact hinv.2.1
      · rw [e4]; exact hinv.2.2
    split_ifs at h <;>
      first
        | (cases h; exact hdone)
        | exact absurd h (by simp)

/-- The option loop preserves the hide-options invariant. -/
theorem parseOptions_hide (toks : List (List Char)) :
    ∀ (acc r : Rule), parseOptions acc toks = some r → hideOptionsInv acc →
      hideOptionsInv r := by
  induction toks with
  | nil =>
    intro acc r h hinv
    simp [parseOptions] at h
    exact h ▸ hinv
  | cons tok rest ih =>
    intro acc r h hinv
    simp only [parseOptions] at h
    cases ht : parseOptionToken acc tok with
    | none => rw [ht] at h; exact absurd h (by simp)
    | some acc2 =>
      rw [ht] at h
      exact ih acc2 r h (parseOptionToken_hide acc tok acc2 ht hinv)

/-- C9 (amended): in every rule produced by the network-rule parser, the
ElementHide / GenericHide option bits appear only on exception rules, and
they never appear in the rule's exception bit-set: the tokens are dropped
on non-exception rules regardless of `~` negation, and on exception rules
a `~`-negated token is dropped as well. -/
theorem hide_options_only_on_exceptions (raw : List Char) (w : Bool) (r : Rule)
    (p : List Char) (h : parseNetworkRule raw w = some (r, p)) :
    ((hasOption r.ruleOptions .ElementHideOption = true ∨
      hasOption r.ruleOptions .GenericHideOption = true) → r.isException = true) ∧
    hasOption r.ruleExceptions .ElementHideOption = false ∧
    hasOption r.ruleExceptions .GenericHideOption = false := by
  have key : ∀ (rule line : List Char) (options : List (List Char)),
      parseAnchors rule line options = some (r, p) → hideOptionsInv r := by
    intro rule line options h
    unfold parseAnchors at h
    dsimp only at h
    split at h
    · rename_i definition hdef
      cases h
      refine parseOptions_hide _ _ _ hdef ?_
      exact ⟨fun hmem => by rcases hmem with hm | hm <;> simp [hasOption] at hm,
        by simp [hasOption], by simp [hasOption]⟩
    · exact absurd h (by simp)
  unfold parseNetworkRule at h
  dsimp only at h
  repeat' split at h
  all_goals
    first
      | exact key _ _ _ h
      | exact absurd h (by simp)

/-- C9 counterexample: the non-exception rule line `a$~elemhide` carries a
negated `elemhide` token, yet the parser drops it entirely: the parsed
rule has empty option and exception bit-sets (the claim's "unless the
token itself is negated" clause says it should have been retained). -/
theorem negated_elemhide_dropped_on_block_rule :
    parseNetworkRule "a$~elemhide".toList true =
      some ({ rule := "a$~elemhide".toList }, ['a']) := by
  simp [parseNetworkRule, parseAnchors, parseOptions, parseOptionToken, lookupOption,
    splitOnSeq, strStartsWith, strEndsWith, strContains]

/-- C9 witness: the exception rule line `@@b$elemhide` keeps the
ElementHide bit in its options and an empty exception bit-set, and the
amended statement instantiates on it. -/
theorem hide_options_only_on_exceptions_witness :
    parseNetworkRule "@@b$elemhide".toList true = some ({ rule := "@@b$elemhide".toList, isException := true, ruleOptions := [.ElementHideOption] }, ['b']) ∧
    hasOption ({ rule := "@@b$elemhide".toList, isException := true, ruleOptions := [.ElementHideOption] } : Rule).ruleExceptions .ElementHideOption = false ∧
    hasOption ({ rule := "@@b$elemhide".toList, isException := true, ruleOptions := [.ElementHideOption] } : Rule).ruleExceptions .GenericHideOption = false := by
  have hp : parseNetworkRule "@@b$elemhide".toList true = some ({ rule := "@@b$elemhide".toList, isException := true, ruleOptions := [.ElementHideOption] }, ['b']) := by
    simp [parseNetworkRule, parseAnchors, parseOptions, parseOptionToken, lookupOption,
      splitOnSeq, strStartsWith, strEndsWith, strContains]
  refine ⟨hp, ?_, ?_⟩
  · exact (hide_options_only_on_exceptions "@@b$elemhide".toList true _ ['b'] hp).2.1
  · exact (hide_options_only_on_exceptions "@@b$elemhide".toList true _ ['b'] hp).2.2

/-! ### The popup opt-in branch -/

/-- C6 (amended): a rule with no option bits and no exception bits at all
never applies to a Popup-type request (`checkRuleMatch` passes),
whatever its domain lists; a rule with only non-type bits such as
`third-party` takes the type-filtering branch instead and can still apply
to popups. -/
theorem no_option_rule_skips_popup (rule : Rule) (currentRule : List Char)
    (request : Request) (hopts : rule.ruleOptions = [])
    (hexcs : rule.ruleExceptions = [])
    (htype : request.resourceType = .PopupType) :
    checkRuleMatch rule currentRule request = {} := by
  have hfb : ruleFinalBlocked rule request = false := by
    simp [ruleFinalBlocked, thirdPartyAdjust, hasOption, hopts, hexcs, htype]
  unfold checkRuleMatch
  rw [hfb]
  split_ifs <;> first | rfl | simp_all

/-- C6 witness: the amended statement instantiated on a bare substring
rule and a popup request. -/
theorem no_option_rule_skips_popup_witness :
    checkRuleMatch { rule := "a".toList }
      "a".toList { requestUrl := "xay".toList, resourceType := .PopupType } = {} :=
  no_option_rule_skips_popup { rule := "a".toList } "a".toList
    { requestUrl := "xay".toList, resourceType := .PopupType } rfl rfl rfl

/-- C6 counterexample: the rule parsed from `a$third-party` has no
type-specific bits (only the third-party option), yet it does apply to a
Popup-type third-party request and blocks it — the claim says it should
not apply. -/
theorem third_party_rule_blocks_popup :
    checkRuleMatch
      { rule := "a$third-party".toList, ruleOptions := [.ThirdPartyOption] }
      "a".toList
      { baseHost := "other".toList, requestUrl := "http://x/a".toList,
        requestHost := "x".toList, resourceType := .PopupType } =
      { isBlocked := true, rule := "a$third-party".toList } := by
  decide

/-! ### Third-party polarity -/

/-- C5: when a matching rule tests or negates the third-party option, a
first-party request (empty base host, or base host contained in the
request host's subdomain list) takes the exception polarity; a
third-party request with no explicit domain lists takes the option
polarity.  On the end-to-end example: the rule `||cdn.test^$third-party`
does not block `http://cdn.test/a` when the base host is `cdn.test`
(first party), and blocks it, echoing the raw line, when the base host is
`site.test`. -/
theorem third_party_polarity :
    (∀ (rule : Rule) (request : Request) (sub : List (List Char)) (b : Bool),
      (hasOption rule.ruleOptions .ThirdPartyOption = true ∨
        hasOption rule.ruleExceptions .ThirdPartyOption = true) →
      (request.baseHost = [] ∨ listHas sub request.baseHost = true) →
      thirdPartyAdjust rule request sub b =
        hasOption rule.ruleExceptions .ThirdPartyOption) ∧
    (∀ (rule : Rule) (request : Request) (sub : List (List Char)) (b : Bool),
      (hasOption rule.ruleOptions .ThirdPartyOption = true ∨
        hasOption rule.ruleExceptions .ThirdPartyOption = true) →
      request.baseHost ≠ [] → listHas sub request.baseHost = false →
      rule.blockedDomains = [] → rule.allowedDomains = [] →
      thirdPartyAdjust rule request sub b =
        hasOption rule.ruleOptions .ThirdPartyOption) ∧
    checkUrl (parseRuleLine .AllFilters true {} "||cdn.test^$third-party".toList).root
      { baseHost := "cdn.test".toList, requestUrl := "http://cdn.test/a".toList, requestHost := "cdn.test".toList, resourceType := .ImageType } = {} ∧
    checkUrl (parseRuleLine .AllFilters true {} "||cdn.test^$third-party".toList).root
      { baseHost := "site.test".toList, requestUrl := "http://cdn.test/a".toList, requestHost := "cdn.test".toList, resourceType := .ImageType } =
      { isBlocked := true, rule := "||cdn.test^$third-party".toList } := by
  refine ⟨?_, ?_, ?_, ?_⟩
  · intro rule request sub b hTP hfp
    unfold thirdPartyAdjust
    rw [if_pos (by rcases hTP with h | h <;> simp [h]),
      if_pos (by rcases hfp with h | h <;> simp [h])]
  · intro rule request sub b hTP hne hhas hbd had
    unfold thirdPartyAdjust
    rw [if_pos (by rcases hTP with h | h <;> simp [h]),
      if_neg (by simp [hhas, List.isEmpty_iff, hne]),
      if_pos (by simp [hbd, had])]
  · simp [parseRuleLine, parseNetworkRule, parseAnchors, parseOptions, parseOptionToken,
      lookupOption, splitOnSeq, strStartsWith, strEndsWith, strContains, insertPattern,
      insertChild, Node.value, checkUrl, checkUrlLoop, checkUrlSubstring, csLoop, csScan,
      csWild, csEnd, evaluateNodeRules, evaluateNodeRulesAux, Node.children, Node.rules,
      checkRuleMatch, ruleMatchModeOk, ruleFinalBlocked, thirdPartyAdjust, ruleFireResult,
      resourceTypeStep, m_resourceTypes, hasOption, listHas, createSubdomainList,
      dotSuffixes, resolveDomainExceptions, sepMatches, m_separators, domainBoundaryChar,
      emptyRoot, List.range_succ, Char.isDigit, Char.isAlpha, Char.isLower, Char.isUpper]
  · simp [parseRuleLine, parseNetworkRule, parseAnchors, parseOptions, parseOptionToken,
      lookupOption, splitOnSeq, strStartsWith, strEndsWith, strContains, insertPattern,
      insertChild, Node.value, checkUrl, checkUrlLoop, checkUrlSubstring, csLoop, csScan,
      csWild, csEnd, evaluateNodeRules, evaluateNodeRulesAux, Node.children, Node.rules,
      checkRuleMatch, ruleMatchModeOk, ruleFinalBlocked, thirdPartyAdjust, ruleFireResult,
      resourceTypeStep, m_resourceTypes, hasOption, listHas, createSubdomainList,
      dotSuffixes, resolveDomainExceptions, sepMatches, m_separators, domainBoundaryChar,
      emptyRoot, List.range_succ, Char.isDigit, Char.isAlpha, Char.isLower, Char.isUpper]

/-- C5 witness: the two polarity statements instantiated on the rule
parsed from `||cdn.test^$third-party` and concrete hosts. -/
theorem third_party_polarity_witness :
    thirdPartyAdjust { rule := "||cdn.test^$third-party".toList, needsDomainCheck := true, ruleOptions := [.ThirdPartyOption] }
      { baseHost := "cdn.test".toList, requestUrl := "http://cdn.test/a".toList, requestHost := "cdn.test".toList, resourceType := .ImageType }
      (createSubdomainList "cdn.test".toList) true = false ∧
    thirdPartyAdjust { rule := "||cdn.test^$third-party".toList, needsDomainCheck := true, ruleOptions := [.ThirdPartyOption] }
      { baseHost := "site.test".toList, requestUrl := "http://cdn.test/a".toList, requestHost := "cdn.test".toList, resourceType := .ImageType }
      (createSubdomainList "cdn.test".toList) true = true := by
  constructor
  · exact (third_party_polarity.1
      { rule := "||cdn.test^$third-party".toList, needsDomainCheck := true, ruleOptions := [.ThirdPartyOption] }
      { baseHost := "cdn.test".toList, requestUrl := "http://cdn.test/a".toList, requestHost := "cdn.test".toList, resourceType := .ImageType }
      (createSubdomainList "cdn.test".toList) true (by decide) (by decide)).trans (by decide)
  · exact (third_party_polarity.2.1
      { rule := "||cdn.test^$third-party".toList, needsDomainCheck := true, ruleOptions := [.ThirdPartyOption] }
      { baseHost := "site.test".toList, requestUrl := "http://cdn.test/a".toList, requestHost := "cdn.test".toList, resourceType := .ImageType }
      (createSubdomainList "cdn.test".toList) true (by decide) (by decide) (by decide)
      rfl rfl).trans (by decide)

/-! ### Behaviour of the separator edge -/

/-- C3 counterexample: with the single network rule `a^b` in the trie,
`checkUrl` does NOT block the request URLs `a/b`, `a?b` and `a=b` —
refuting the claim, which says all three are blocked — and does not block
`a1b` or `aab` either (that part of the claim holds).  Each walk passes
the unshifted slice to the `'^'` child, so the separator character must
also match the `'^'` child's next pattern character `b`, which fails. -/
theorem separator_edge_never_consumes :
    checkUrl (parseRuleLine .AllFilters true {} "a^b".toList).root
      { requestUrl := "a/b".toList, resourceType := .ImageType } = {} ∧
    checkUrl (parseRuleLine .AllFilters true {} "a^b".toList).root
      { requestUrl := "a?b".toList, resourceType := .ImageType } = {} ∧
    checkUrl (parseRuleLine .AllFilters true {} "a^b".toList).root
      { requestUrl := "a=b".toList, resourceType := .ImageType } = {} ∧
    checkUrl (parseRuleLine .AllFilters true {} "a^b".toList).root
      { requestUrl := "a1b".toList, resourceType := .ImageType } = {} ∧
    checkUrl (parseRuleLine .AllFilters true {} "a^b".toList).root
      { requestUrl := "aab".toList, resourceType := .ImageType } = {} := by
  refine ⟨?_, ?_, ?_, ?_, ?_⟩ <;>
    simp [parseRuleLine, parseNetworkRule, parseAnchors, parseOptions, strStartsWith,
      strEndsWith, strContains, insertPattern, insertChild, Node.value, checkUrl,
      checkUrlLoop, checkUrlSubstring, csLoop, csScan, csWild, csEnd, evaluateNodeRules,
      evaluateNodeRulesAux, Node.children, Node.rules, checkRuleMatch, ruleMatchModeOk,
      ruleFinalBlocked, thirdPartyAdjust, ruleFireResult, resourceTypeStep,
      m_resourceTypes, hasOption, listHas, createSubdomainList, dotSuffixes,
      resolveDomainExceptions, sepMatches, m_separators, domainBoundaryChar, emptyRoot,
      List.range_succ, Char.isDigit, Char.isAlpha, Char.isLower, Char.isUpper]

/-- C3 (amended): a `'^'` trie edge consumes no URL character — the
separator-class branch recurses on the unshifted slice — so a mid-pattern
separator position must itself match the next pattern character, and a
`'^'` between two literals matches only a literal `'^'` URL character,
through the ordinary equality edge: the rule `a^b` blocks a URL containing
the literal text `a^b` and blocks none of `a/b`, `a?b`, `a=b`. -/
theorem separator_edge_matches_literal_caret :
    checkUrl (parseRuleLine .AllFilters true {} "a^b".toList).root
      { requestUrl := "xa^by".toList, resourceType := .ImageType } =
      { isBlocked := true, rule := "a^b".toList } ∧
    checkUrl (parseRuleLine .AllFilters true {} "a^b".toList).root
      { requestUrl := "a/b".toList, resourceType := .ImageType } = {} ∧
    checkUrl (parseRuleLine .AllFilters true {} "a^b".toList).root
      { requestUrl := "a?b".toList, resourceType := .ImageType } = {} ∧
    checkUrl (parseRuleLine .AllFilters true {} "a^b".toList).root
      { requestUrl := "a=b".toList, resourceType := .ImageType } = {} := by
  refine ⟨?_, ?_, ?_, ?_⟩ <;>
    simp [parseRuleLine, parseNetworkRule, parseAnchors, parseOptions, strStartsWith,
      strEndsWith, strContains, insertPattern, insertChild, Node.value, checkUrl,
      checkUrlLoop, checkUrlSubstring, csLoop, csScan, csWild, csEnd, evaluateNodeRules,
      evaluateNodeRulesAux, Node.children, Node.rules, checkRuleMatch, ruleMatchModeOk,
      ruleFinalBlocked, thirdPartyAdjust, ruleFireResult, resourceTypeStep,
      m_resourceTypes, hasOption, listHas, createSubdomainList, dotSuffixes,
      resolveDomainExceptions, sepMatches, m_separators, domainBoundaryChar, emptyRoot,
      List.range_succ, Char.isDigit, Char.isAlpha, Char.isLower, Char.isUpper]

/-- C4: with the single network rule `ab^` in the trie, the end-of-URL
check re-evaluates the rules of the final node itself instead of those of
its `'^'` child, so the request URL `ab` is NOT blocked (the claim and
the spec say the `'^'` child's rules are evaluated there, which would
block it); the same rule does block `ab/`, where the separator is matched
against a real URL character mid-walk. -/
theorem trailing_separator_not_evaluated_at_url_end :
    checkUrl (parseRuleLine .AllFilters true {} "ab^".toList).root
      { requestUrl := "ab".toList, resourceType := .ImageType } = {} ∧
    checkUrl (parseRuleLine .AllFilters true {} "ab^".toList).root
      { requestUrl := "ab/".toList, resourceType := .ImageType } =
      { isBlocked := true, rule := "ab^".toList } := by
  constructor <;>
    simp [parseRuleLine, parseNetworkRule, parseAnchors, parseOptions, strStartsWith,
      strEndsWith, strContains, insertPattern, insertChild, Node.value, checkUrl,
      checkUrlLoop, checkUrlSubstring, csLoop, csScan, csWild, csEnd, evaluateNodeRules,
      evaluateNodeRulesAux, Node.children, Node.rules, checkRuleMatch, ruleMatchModeOk,
      ruleFinalBlocked, thirdPartyAdjust, ruleFireResult, resourceTypeStep,
      m_resourceTypes, hasOption, listHas, createSubdomainList, dotSuffixes,
      resolveDomainExceptions, sepMatches, m_separators, domainBoundaryChar, emptyRoot,
      List.range_succ, Char.isDigit, Char.isAlpha, Char.isLower, Char.isUpper]

/-! ### Canonical buffer and checksum validation -/

/-- Newline-joined lines, as `buildData` appends them. -/
def joinNl : List (List Char) → List Char
  | [] => []
  | l :: rest => '\n' :: l ++ joinNl rest

/-- The canonical buffer exactly as claim C7 words it: the header line
followed by every remaining line except the line beginning
`! Checksum:`. -/
def claimCanonicalBuffer (header : List Char) (body : List (List Char)) : List Char :=
  header ++ joinNl (body.filter (fun l => !strStartsWith l "! Checksum:".toList))

/-- The lines the update handler actually keeps: non-empty lines, except
`! Checksum:` lines scanned while the captured checksum is still
empty. -/
def canonicalKeep (checksum : List Char) : List (List Char) → List (List Char)
  | [] => []
  | l :: rest =>
    if l = [] then canonicalKeep checksum rest
    else if checksum = [] ∧ strStartsWith l "! Checksum:".toList then
      canonicalKeep (strTrim (l.drop 11)) rest
    else l :: canonicalKeep checksum rest

/-- The checksum value the update handler captures. -/
def canonicalCapture (checksum : List Char) : List (List Char) → List Char
  | [] => checksum
  | l :: rest =>
    if l = [] then canonicalCapture checksum rest
    else if checksum = [] ∧ strStartsWith l "! Checksum:".toList then
      canonicalCapture (strTrim (l.drop 11)) rest
    else canonicalCapture checksum rest

/-- The buffer loop of the update handler appends exactly the kept lines
and captures exactly the capture value. -/
theorem buildData_eq (body : List (List Char)) :
    ∀ (data checksum : List Char),
      buildData data checksum body =
        (data ++ joinNl (canonicalKeep checksum body), canonicalCapture checksum body) := by
  induction body with
  | nil => intro data checksum; simp [buildData, canonicalKeep, canonicalCapture, joinNl]
  | cons l rest ih =>
    intro data checksum
    simp only [buildData, canonicalKeep, canonicalCapture]
    by_cases hl : l = []
    · subst hl
      simp [ih data checksum]
    · have hcond : (!l.isEmpty) = true := by simp [hl]
      rw [if_pos hcond, if_neg hl, if_neg hl]
      by_cases hc : checksum = [] ∧ strStartsWith l "! Checksum:".toList = true
      · have hcb : (checksum.isEmpty && strStartsWith l "! Checksum:".toList) = true := by
          rw [hc.1, hc.2]; rfl
        rw [if_pos hcb, if_pos hc, if_pos hc]
        exact ih data (strTrim (l.drop 11))
      · have hcb : ¬((checksum.isEmpty && strStartsWith l "! Checksum:".toList) = true) := by
          simp only [Bool.and_eq_true, List.isEmpty_iff]
          exact fun hx => hc hx
        rw [if_neg hcb, if_neg hc, if_neg hc, ih (data ++ '\n' :: l) checksum]
        simp [joinNl]

/-- C7 counterexample: a body containing an empty line.  The claim's
canonical buffer keeps the empty line (an extra newline); the handler's
buffer drops it. -/
theorem empty_line_dropped_from_canonical_buffer :
    (buildData "[Adblock Plus 2.0]".toList [] [[], ['x']]).1 ≠
      claimCanonicalBuffer "[Adblock Plus 2.0]".toList [[], ['x']] := by
  decide

/-- C7 (amended): on a response with a valid header, the canonical buffer
is the header line followed by every remaining non-empty line, except
the `! Checksum:` lines scanned while no checksum value has been captured
yet (whose trimmed remainder supplies the declared checksum), and the
update fails with `ChecksumError` exactly when the captured checksum is
non-empty and differs from the base64 MD5 of the canonical buffer with
the two characters at positions 22-23 (the padding of an MD5 digest)
removed. -/
theorem canonical_buffer_and_checksum (md5 : List Char → List Nat)
    (header : List Char) (body : List (List Char))
    (hheader : strContains header "[Adblock".toList = true) :
    (buildData header [] body).1 = header ++ joinNl (canonicalKeep [] body) ∧
    (buildData header [] body).2 = canonicalCapture [] body ∧
    (handleJobFinishedModel md5 header body = .checksumError ↔
      (canonicalCapture [] body ≠ [] ∧
        removeMid (toBase64 (md5 (header ++ joinNl (canonicalKeep [] body)))) 22 2 ≠
          canonicalCapture [] body)) := by
  have hb : buildData header [] body =
      (header ++ joinNl (canonicalKeep [] body), canonicalCapture [] body) :=
    buildData_eq body header []
  refine ⟨by rw [hb], by rw [hb], ?_⟩
  unfold handleJobFinishedModel
  rw [if_neg (by rw [hheader]; simp), hb]
  dsimp only
  split_ifs with hcond
  · simp only [Bool.and_eq_true, Bool.not_eq_true', decide_eq_true_eq,
      List.isEmpty_eq_false, List.isEmpty_iff] at hcond
    exact iff_of_true rfl ⟨by simpa using hcond.1, by simpa using hcond.2⟩
  · simp only [Bool.and_eq_true, Bool.not_eq_true', decide_eq_true_eq,
      List.isEmpty_eq_false, List.isEmpty_iff, not_and_or] at hcond
    refine iff_of_false (by simp) ?_
    intro ⟨h1, h2⟩
    rcases hcond with hc | hc
    · exact h1 (by simpa using hc)
    · exact h2 (by simpa using hc)

/-- C7 witness: a concrete body whose declared checksum mismatches the
all-zero digest. -/
theorem canonical_buffer_and_checksum_witness :
    strContains "[Adblock Plus 2.0]".toList "[Adblock".toList = true ∧
    (handleJobFinishedModel (fun _ => List.replicate 16 0) "[Adblock Plus 2.0]".toList
        [['x'], "! Checksum: y".toList] = .checksumError ↔
      (canonicalCapture [] [['x'], "! Checksum: y".toList] ≠ [] ∧
        removeMid (toBase64 ((fun _ => List.replicate 16 0)
            ("[Adblock Plus 2.0]".toList ++
              joinNl (canonicalKeep [] [['x'], "! Checksum: y".toList])))) 22 2 ≠
          canonicalCapture [] [['x'], "! Checksum: y".toList])) :=
  ⟨by decide,
   (canonical_buffer_and_checksum (fun _ => List.replicate 16 0)
     "[Adblock Plus 2.0]".toList [['x'], "! Checksum: y".toList] (by decide)).2.2⟩

/-! ### What the header scan reads -/

/-- The prefix of the body that the header scan actually processes,
starting from counter value `lineNumber`: title lines are processed
without counting, non-title lines are counted, and a non-title line
reached with the counter above 50 is the last line processed. -/
def scannedBodyPrefix (lineNumber : Nat) : List (List Char) → List (List Char)
  | [] => []
  | l :: rest =>
    if strStartsWith (strTrim l) "! Title: ".toList then
      l :: scannedBodyPrefix lineNumber rest
    else if lineNumber > 50 then [l]
    else l :: scannedBodyPrefix (lineNumber + 1) rest

/-- The body scan only looks at its scanned prefix. -/
theorem scanHeaderBody_trunc (body : List (List Char)) :
    ∀ (information : HeaderInformation) (lineNumber : Nat),
      scanHeaderBody information lineNumber body =
        scanHeaderBody information lineNumber (scannedBodyPrefix lineNumber body) := by
  induction body with
  | nil => intro info k; rfl
  | cons l rest ih =>
    intro info k
    by_cases hT : strStartsWith (strTrim l) "! Title: ".toList = true
    · simp only [scanHeaderBody, scannedBodyPrefix, hT, ite_true, if_true]
      exact ih _ k
    · by_cases hk : k > 50
      · simp only [scanHeaderBody, scannedBodyPrefix, hT, hk, ite_true, ite_false,
          if_true, if_false]
        rfl
      · simp only [scanHeaderBody, scannedBodyPrefix, hT, hk, ite_true, ite_false,
          if_true, if_false]
        exact ih _ (k + 1)

/-- C8 (amended): the header scan's result depends only on the header
line and the body prefix up to and including the 51st non-title line
(title lines are processed without counting toward the limit, so the scan
can read past file line 51). -/
theorem header_scan_depends_on_scanned_prefix (lines : List (List Char)) :
    loadHeaderScan lines =
      loadHeaderScan
        (match lines with
         | [] => []
         | h :: body => h :: scannedBodyPrefix 1 body) := by
  cases lines with
  | nil => rfl
  | cons h body =>
    simp only [loadHeaderScan]
    split_ifs
    · rfl
    · exact scanHeaderBody_trunc body {} 1

/-- C8 counterexample: a file of 52 lines (header, 50 comment lines, then
a title on file line 52).  The scan reads and uses file line 52, so its
result differs from the scan of the first 51 lines only. -/
theorem header_scan_uses_line_52 :
    loadHeaderScan
        ("[Adblock".toList :: (List.replicate 50 ['!'] ++ ["! Title: Z".toList])) ≠
      loadHeaderScan
        (("[Adblock".toList ::
          (List.replicate 50 ['!'] ++ ["! Title: Z".toList])).take 51) := by
  have h1 : (loadHeaderScan
      ("[Adblock".toList :: (List.replicate 50 ['!'] ++ ["! Title: Z".toList]))).title =
      "Z".toList := by
    simp [loadHeaderScan, scanHeaderBody, strContainsCI, strContains, strStartsWith,
      strTrim, isSpaceChar, splitOnSeq, List.replicate_succ]
  have h2 : (loadHeaderScan
      (("[Adblock".toList ::
        (List.replicate 50 ['!'] ++ ["! Title: Z".toList])).take 51)).title = [] := by
    simp [loadHeaderScan, scanHeaderBody, strContainsCI, strContains, strStartsWith,
      strTrim, isSpaceChar, splitOnSeq, List.replicate_succ, List.take_succ_cons]
  intro hcontra
  rw [hcontra, h2] at h1
  exact absurd h1 (by decide)

/-- End-to-end consistency check of the embedding (spec scenario 2): with
the block rule `||ads.example.com^` and the exception rule
`@@||ads.example.com/ok^` in the trie, the request for
`http://ads.example.com/ok/pixel` yields the exception, which overrides
the block matched on the same walk. -/
theorem matcher_exception_overrides_block :
    checkUrl (parseRuleLine .AllFilters true
        (parseRuleLine .AllFilters true {} "||ads.example.com^".toList)
        "@@||ads.example.com/ok^".toList).root
      { baseHost := "site.test".toList, requestUrl := "http://ads.example.com/ok/pixel".toList, requestHost := "ads.example.com".toList, resourceType := .ImageType } =
      { isBlocked := false, isException := true, rule := "@@||ads.example.com/ok^".toList } := by
  simp [parseRuleLine, parseNetworkRule, parseAnchors, parseOptions, strStartsWith,
    strEndsWith, strContains, insertPattern, insertChild, Node.value, checkUrl,
    checkUrlLoop, checkUrlSubstring, csLoop, csScan, csWild, csEnd, evaluateNodeRules,
    evaluateNodeRulesAux, Node.children, Node.rules, checkRuleMatch, ruleMatchModeOk,
    ruleFinalBlocked, thirdPartyAdjust, ruleFireResult, resourceTypeStep,
    m_resourceTypes, hasOption, listHas, createSubdomainList, dotSuffixes,
    resolveDomainExceptions, sepMatches, m_separators, domainBoundaryChar, emptyRoot,
    List.range_succ, Char.isDigit, Char.isAlpha, Char.isLower, Char.isUpper]

/-- End-to-end consistency check of the embedding (spec scenario 3): the
rule `/trackers/*$script` (trailing `*` stripped at parse time) blocks a
script request for `http://x.test/trackers/a/b.js` and passes the same
URL requested as an image. -/
theorem matcher_script_option_filters_type :
    checkUrl (parseRuleLine .AllFilters true {} "/trackers/*$script".toList).root
      { baseHost := "x.test".toList, requestUrl := "http://x.test/trackers/a/b.js".toList, requestHost := "x.test".toList, resourceType := .ScriptType } =
      { isBlocked := true, rule := "/trackers/*$script".toList } ∧
    checkUrl (parseRuleLine .AllFilters true {} "/trackers/*$script".toList).root
      { baseHost := "x.test".toList, requestUrl := "http://x.test/trackers/a/b.js".toList, requestHost := "x.test".toList, resourceType := .ImageType } = {} := by
  constructor <;>
    simp [parseRuleLine, parseNetworkRule, parseAnchors, parseOptions, parseOptionToken,
      lookupOption, splitOnSeq, strStartsWith, strEndsWith, strContains, insertPattern,
      insertChild, Node.value, checkUrl, checkUrlLoop, checkUrlSubstring, csLoop, csScan,
      csWild, csEnd, evaluateNodeRules, evaluateNodeRulesAux, Node.children, Node.rules,
      checkRuleMatch, ruleMatchModeOk, ruleFinalBlocked, thirdPartyAdjust, ruleFireResult,
      resourceTypeStep, m_resourceTypes, hasOption, listHas, createSubdomainList,
      dotSuffixes, resolveDomainExceptions, sepMatches, m_separators, domainBoundaryChar,
      emptyRoot, List.range_succ, Char.isDigit, Char.isAlpha, Char.isLower, Char.isUpper]

/-! ### Frame of the member loadHeader -/

/-- C10: for every profile and every scan result (in particular the scan
of any profile file), the member `loadHeader` keeps the title unchanged
whenever the custom-title flag is set; with the flag unset it replaces
the title only when the scan succeeded with a non-empty title; and it
changes no metadata other than the title, the emptiness hint and the
error state (name, update URL, languages, update interval, category,
flags and loaded state are untouched). -/
theorem loadHeader_member_frame (profile : Profile) (information : HeaderInformation) :
    (loadHeaderMember profile information).title =
      (if profile.flags.hasCustomTitle then profile.title
       else if information.error ≠ .NoError then profile.title
       else if information.title.isEmpty then profile.title
       else information.title) ∧
    (loadHeaderMember profile information).isEmpty =
      (if information.error ≠ .NoError then profile.isEmpty else information.isEmpty) ∧
    (loadHeaderMember profile information).error =
      (if information.error ≠ .NoError then information.error else profile.error) ∧
    (loadHeaderMember profile information).name = profile.name ∧
    (loadHeaderMember profile information).updateUrl = profile.updateUrl ∧
    (loadHeaderMember profile information).languages = profile.languages ∧
    (loadHeaderMember profile information).updateInterval = profile.updateInterval ∧
    (loadHeaderMember profile information).category = profile.category ∧
    (loadHeaderMember profile information).flags = profile.flags ∧
    (loadHeaderMember profile information).wasLoaded = profile.wasLoaded := by
  unfold loadHeaderMember
  by_cases herr : information.error ≠ ProfileError.NoError
  · simp [herr]
  · by_cases hct : profile.flags.hasCustomTitle
    · simp [herr, hct]
    · by_cases ht : information.title.isEmpty
      · simp [herr, hct, ht]
      · simp [herr, hct, ht]

end Otter
